import Mathlib

/-! packer-builder-arm: mount ordering, mount manager step and chroot communicator

A shallow embedding of `builder/step_mount_image.go` and `builder/communicator.go`.

Go strings are modelled by Lean `String`; for well-formed UTF-8 text the byte-wise
order of Go's `<` on strings coincides with the code-point order used here, and the
last byte of a string is `'/'` exactly when its last character is.

`sort.Slice` and `filepath.Join` belong to the Go standard library, not to the
repository; they are taken as parameters.  `sort.Slice` is constrained by its
documented contract where a proof needs it, and the insertion sort it runs on short
slices is given as an instance; `filepath.Join` on a Unix host is written out for the
concrete runs.  The parts of `syscall.WaitStatus`, `exec.Cmd.Wait` and
`strings.Contains` that the communicator relies on are written out after the Go
standard library for POSIX hosts.

The host (file system, `mount`, `umount`, the shell) is an arbitrary deterministic
machine; what a step does is recorded as a trace of events, and the statements about
a step compare that trace and the host it leaves with the calls made on the host
directly, one after the other.
-/

namespace Builder

/-! ## Data model -/

/-- Modelled from the spec: the declaration of `cfg.Partition` lives in the `config`
package, outside the source at hand.  The spec's data model gives it an `Index`
(assigned at ordering time) and a `Mountpoint` (empty means "not mountable"). -/
structure Partition where
  Index : Int
  Mountpoint : String
  deriving DecidableEq, Repr

/-- Go's comparison of two strings, on their character sequences: the first position
where they differ decides, and a proper prefix is smaller. -/
def lexLess : List Char → List Char → Bool
  | [], [] => false
  | [], _ :: _ => true
  | _ :: _, [] => false
  | a :: as, b :: bs => if a < b then true else if b < a then false else lexLess as bs

/-- Go's `s < t` on strings. -/
def stringLess (s t : String) : Bool := lexLess s.data t.data

/-- The type of Go's `sort.Slice` once the index-based `less` closure of
`sortMountablePartitions` is read as a comparison of the elements it indexes. -/
abbrev SliceSort := (Partition → Partition → Bool) → List Partition → List Partition

/-- The requirement `sort.Interface.Less` puts on a comparison: irreflexive,
transitive, and with transitive incomparability. -/
structure StrictWeakOrdering (less : Partition → Partition → Bool) : Prop where
  irrefl : ∀ a, less a a = false
  trans : ∀ a b c, less a b = true → less b c = true → less a c = true
  negTrans : ∀ a b c, less a b = false → less b c = false → less a c = false

/-- The documented contract of `sort.Slice`: the result is a rearrangement of the
slice, and for a well-behaved `less` no later element is less than an earlier one.
Stability is not part of the contract. -/
structure SortSliceContract (sortSlice : SliceSort) : Prop where
  perm : ∀ less l, (sortSlice less l).Perm l
  sorted : ∀ less l, StrictWeakOrdering less →
    (sortSlice less l).Pairwise (fun a b => less b a = false)

/-- Inner loop of Go's `insertionSortLessFunc`:
`for j := i; j > a && less(j, j-1); j-- { swap(j, j-1) }`.
The already sorted prefix is held back to front, so its head is the element at `j-1`. -/
def insertBackward (less : Partition → Partition → Bool) (x : Partition) :
    List Partition → List Partition
  | [] => [x]
  | y :: ys => if less x y then y :: insertBackward less x ys else x :: y :: ys

/-- Go's `insertionSortLessFunc`, the algorithm `sort.Slice` runs on short slices
(at most 12 elements since Go 1.19; at most 6 elements before the shell pass of the
older quicksort): every element in turn is swapped backward into the sorted prefix. -/
def insertionSortLessFunc : SliceSort :=
  fun less l => (l.foldl (fun sortedRev x => insertBackward less x sortedRev) []).reverse

/-! ## Mount ordering (`sortMountablePartitions`) -/

/-- The loop `for i, partition := range partitions` of `sortMountablePartitions`,
from position `i` on: the copy gets `Index = i + 1` and is appended when its
mountpoint is not empty. -/
def mountableFrom (i : Nat) : List Partition → List Partition
  | [] => []
  | partition :: rest =>
    let partition := { partition with Index := (i : Int) + 1 }
    if partition.Mountpoint ≠ "" then partition :: mountableFrom (i + 1) rest
    else mountableFrom (i + 1) rest

/-- The closure handed to `sort.Slice`: `Mountpoint > Mountpoint` when `reverse`
(Go's `a > b` on strings is `b < a`), `Mountpoint < Mountpoint` otherwise. -/
def mountLess (reverse : Bool) (a b : Partition) : Bool :=
  if reverse then stringLess b.Mountpoint a.Mountpoint
  else stringLess a.Mountpoint b.Mountpoint

/-- Embedding of `sortMountablePartitions(partitions, reverse)`. -/
def sortMountablePartitions (sortSlice : SliceSort) (partitions : List Partition)
    (reverse : Bool) : List Partition :=
  sortSlice (mountLess reverse) (mountableFrom 0 partitions)

/-! ## Mount manager step (`StepMountImage`) -/

/-- The step's fields. -/
structure StepMountImage where
  FromKey : String
  ResultKey : String
  MouthPath : String
  mountpoints : List String
  deriving DecidableEq, Repr

/-- The two results of `multistep.Step.Run`. -/
inductive StepAction where
  | ActionContinue
  | ActionHalt
  deriving DecidableEq, Repr

/-- What a step does to the outside, in the order it does it.  A host operation is
recorded with its outcome: `none` is Go's `err == nil`, `some msg` an error whose
`Error()` text is `msg`. -/
inductive Event where
  | mkdirAll (path : String) (err : Option String)
  | tempDir (path : String) (err : Option String)
  | mount (device path : String) (err : Option String)
  | umount (path : String) (err : Option String)
  | remove (path : String) (err : Option String)
  | uiError (msg : String)
  | uiMessage (msg : String)
  | statePut (key value : String)
  deriving DecidableEq, Repr

/-- The host the step runs on, as a deterministic machine over an arbitrary state:
`os.MkdirAll`, `ioutil.TempDir("", "")`, `exec.Command("mount", device, path)`,
`exec.Command("umount", path)` and `os.Remove`.  Any pattern of successes and
failures is some host. -/
structure Host (σ : Type) where
  mkdirAll : σ → String → σ × Option String
  tempDir : σ → σ × String × Option String
  mount : σ → String → String → σ × Option String
  umount : σ → String → σ × Option String
  remove : σ → String → σ × Option String

/-- Outcome of the mount loop of `Run`. -/
structure LoopResult (σ : Type) where
  world : σ
  mountpoints : List String
  trace : List Event
  completed : Bool

/-- Device path `fmt.Sprintf("%sp%d", loopDevice, partition.Index)`. -/
def devicePath (loopDevice : String) (partition : Partition) : String :=
  loopDevice ++ "p" ++ toString partition.Index

/-- The loop `for _, partition := range partitions` of `Run`; `mountpoints` is
`s.mountpoints`.  A failing `os.MkdirAll` or `mount` reports the error and leaves the
loop (`return multistep.ActionHalt`). -/
def mountLoop {σ : Type} (host : Host σ) (join : String → String → String)
    (MouthPath loopDevice : String) :
    List Partition → σ → List String → LoopResult σ
  | [], w, mountpoints => ⟨w, mountpoints, [], true⟩
  | partition :: rest, w, mountpoints =>
    let mountpoint := join MouthPath partition.Mountpoint
    let device := devicePath loopDevice partition
    match host.mkdirAll w mountpoint with
    | (w1, some err) =>
      ⟨w1, mountpoints, [Event.mkdirAll mountpoint (some err), Event.uiError err], false⟩
    | (w1, none) =>
      let msg := "mounting " ++ device ++ " to " ++ mountpoint
      match host.mount w1 device mountpoint with
      | (w2, some err) =>
        ⟨w2, mountpoints,
          [Event.mkdirAll mountpoint none, Event.uiMessage msg,
           Event.mount device mountpoint (some err), Event.uiError err], false⟩
      | (w2, none) =>
        let r := mountLoop host join MouthPath loopDevice rest w2 (mountpoints ++ [mountpoint])
        ⟨r.world, r.mountpoints,
          [Event.mkdirAll mountpoint none, Event.uiMessage msg,
           Event.mount device mountpoint none] ++ r.trace, r.completed⟩

/-- Outcome of `Run`: the step afterwards, the host afterwards, what was done, and
the returned action. -/
structure RunResult (σ : Type) where
  step : StepMountImage
  world : σ
  trace : List Event
  action : StepAction

/-- The part of `Run` after the build root is resolved: plan, mount loop,
`state.Put(s.ResultKey, s.MouthPath)`. -/
def runMounts {σ : Type} (sortSlice : SliceSort) (join : String → String → String)
    (host : Host σ) (partitions : List Partition) (loopDevice : String)
    (s : StepMountImage) (w : σ) (pre : List Event) : RunResult σ :=
  let plan := sortMountablePartitions sortSlice partitions false
  let r := mountLoop host join s.MouthPath loopDevice plan w s.mountpoints
  let s1 := { s with mountpoints := r.mountpoints }
  if r.completed then
    ⟨s1, r.world, pre ++ r.trace ++ [Event.statePut s.ResultKey s.MouthPath],
      StepAction.ActionContinue⟩
  else
    ⟨s1, r.world, pre ++ r.trace, StepAction.ActionHalt⟩

/-- Embedding of `StepMountImage.Run`; `partitions` is
`config.ImageConfig.ImagePartitions` and `loopDevice` is `state.Get(s.FromKey)`. -/
def Run {σ : Type} (sortSlice : SliceSort) (join : String → String → String)
    (host : Host σ) (partitions : List Partition) (loopDevice : String)
    (s : StepMountImage) (w : σ) : RunResult σ :=
  if s.MouthPath.length > 0 then
    match host.mkdirAll w s.MouthPath with
    | (w1, some err) =>
      ⟨s, w1, [Event.mkdirAll s.MouthPath (some err), Event.uiError err],
        StepAction.ActionHalt⟩
    | (w1, none) =>
      runMounts sortSlice join host partitions loopDevice s w1
        [Event.mkdirAll s.MouthPath none]
  else
    match host.tempDir w with
    | (w1, tempdir, some err) =>
      ⟨s, w1, [Event.tempDir tempdir (some err), Event.uiError err], StepAction.ActionHalt⟩
    | (w1, tempdir, none) =>
      runMounts sortSlice join host partitions loopDevice { s with MouthPath := tempdir } w1
        [Event.tempDir tempdir none]

/-- The loop `for _, partition := range partitions` of `Cleanup`: a failing `umount`
is reported and the loop goes on. -/
def umountLoop {σ : Type} (host : Host σ) (join : String → String → String)
    (MouthPath : String) : List Partition → σ → σ × List Event
  | [], w => (w, [])
  | partition :: rest, w =>
    let mountpoint := join MouthPath partition.Mountpoint
    match host.umount w mountpoint with
    | (w1, some err) =>
      let r := umountLoop host join MouthPath rest w1
      (r.1, Event.umount mountpoint (some err) :: Event.uiError err :: r.2)
    | (w1, none) =>
      let r := umountLoop host join MouthPath rest w1
      (r.1, Event.umount mountpoint none :: r.2)

/-- Outcome of `Cleanup`. -/
structure CleanupResult (σ : Type) where
  step : StepMountImage
  world : σ
  trace : List Event

/-- Embedding of `StepMountImage.Cleanup`. -/
def Cleanup {σ : Type} (sortSlice : SliceSort) (join : String → String → String)
    (host : Host σ) (partitions : List Partition)
    (s : StepMountImage) (w : σ) : CleanupResult σ :=
  if s.MouthPath ≠ "" then
    let plan := sortMountablePartitions sortSlice partitions true
    let r := umountLoop host join s.MouthPath plan w
    match host.remove r.1 s.MouthPath with
    | (w2, some err) =>
      ⟨{ s with mountpoints := [], MouthPath := "" }, w2,
        r.2 ++ [Event.remove s.MouthPath (some err), Event.uiError err]⟩
    | (w2, none) =>
      ⟨{ s with mountpoints := [], MouthPath := "" }, w2,
        r.2 ++ [Event.remove s.MouthPath none]⟩
  else
    ⟨s, w, []⟩

/-! ### Reading a trace -/

/-- The `mount` invocations of a trace, as (device, path), in order. -/
def mountCalls : List Event → List (String × String)
  | [] => []
  | Event.mount device path _ :: t => (device, path) :: mountCalls t
  | _ :: t => mountCalls t

/-- The `umount` invocations of a trace, by path, in order. -/
def umountCalls : List Event → List String
  | [] => []
  | Event.umount path _ :: t => path :: umountCalls t
  | _ :: t => umountCalls t

/-- The `os.Remove` invocations of a trace, by path, in order. -/
def removeCalls : List Event → List String
  | [] => []
  | Event.remove path _ :: t => path :: removeCalls t
  | _ :: t => removeCalls t

/-- The texts passed to `ui.Error`, in order. -/
def uiErrors : List Event → List String
  | [] => []
  | Event.uiError msg :: t => msg :: uiErrors t
  | _ :: t => uiErrors t

/-- The error texts of the failing `umount` invocations, in order. -/
def umountFailures : List Event → List String
  | [] => []
  | Event.umount _ (some err) :: t => err :: umountFailures t
  | _ :: t => umountFailures t

/-- The `state.Put` calls of a trace, in order. -/
def statePuts : List Event → List (String × String)
  | [] => []
  | Event.statePut key value :: t => (key, value) :: statePuts t
  | _ :: t => statePuts t

/-- A host operation that returned an error. -/
def Event.failed : Event → Bool
  | Event.mkdirAll _ (some _) => true
  | Event.tempDir _ (some _) => true
  | Event.mount _ _ (some _) => true
  | Event.umount _ (some _) => true
  | Event.remove _ (some _) => true
  | _ => false

/-- The (device, path) pair `Run` mounts for a plan entry under build root `root`. -/
def mountTarget (join : String → String → String) (root loopDevice : String)
    (partition : Partition) : String × String :=
  (devicePath loopDevice partition, join root partition.Mountpoint)

/-- A host that plays a fixed script: the k-th host operation fails exactly when the
k-th entry of the script is an error; past the script every operation succeeds.
Temporary directories are named `/tmp/build`. -/
def scriptedHost : Host (List (Option String)) where
  mkdirAll := fun w _ => (w.tail, w.head?.join)
  tempDir := fun w => (w.tail, "/tmp/build", w.head?.join)
  mount := fun w _ _ => (w.tail, w.head?.join)
  umount := fun w _ => (w.tail, w.head?.join)
  remove := fun w _ => (w.tail, w.head?.join)

/-- The elements of a path: the pieces between its separators `/`. -/
def splitPath : List Char → List (List Char)
  | [] => [[]]
  | c :: cs =>
    if c = '/' then [] :: splitPath cs
    else
      match splitPath cs with
      | [] => [[c]]
      | e :: es => (c :: e) :: es

/-- One round of the loop of Go's `filepath.Clean`, on the next element of the path;
`out` holds the elements written so far, the last one first.  An empty element and
`.` are dropped; `..` removes the last element written, and where there is none to
remove it is dropped on a rooted path and written on any other; every other
element is written. -/
def cleanStep (rooted : Bool) (out : List (List Char)) (elem : List Char) :
    List (List Char) :=
  if elem = [] ∨ elem = ['.'] then out
  else if elem = ['.', '.'] then
    match out with
    | top :: below => if top = ['.', '.'] then elem :: out else below
    | [] => if rooted then out else [elem]
  else elem :: out

/-- Go's `filepath.Clean` on a Unix host: the elements that remain, joined by single
separators, after the root when the path is rooted; `.` for an empty result. -/
def filepathClean (path : String) : String :=
  if path = "" then "."
  else
    let rooted := decide (path.data.head? = some '/')
    let out := (splitPath path.data).foldl (cleanStep rooted) []
    let body := String.mk (List.intercalate ['/'] out.reverse)
    if rooted then "/" ++ body
    else if out = [] then "."
    else body

/-- Go's `filepath.Join` of two elements on a Unix host: from the first non-empty
element on, the elements are joined by `/` and the result is cleaned; `""` when both
are empty. -/
def filepathJoin (a b : String) : String :=
  if a ≠ "" then filepathClean (a ++ "/" ++ b)
  else if b ≠ "" then filepathClean b
  else ""

/-! ## Chroot communicator (`Communicator`) -/

/-- Go's `syscall.WaitStatus.Exited` on a POSIX host: `w&mask == exited` with
`mask = 0x7F` and `exited = 0`; the low seven bits of `w` are `w % 128`. -/
def WaitStatus.Exited (w : Nat) : Bool := w % 128 == 0

/-- Go's `syscall.WaitStatus.Signaled`: `w&mask != stopped && w&mask != exited` with
`stopped = 0x7F`. -/
def WaitStatus.Signaled (w : Nat) : Bool := w % 128 != 127 && w % 128 != 0

/-- Go's `syscall.WaitStatus.ExitStatus`: `-1` unless `Exited`, else
`int(w>>shift) & 0xFF` with `shift = 8`. -/
def WaitStatus.ExitStatus (w : Nat) : Int :=
  if !WaitStatus.Exited w then -1 else ((w / 256 % 256 : Nat) : Int)

/-- The wait status the kernel reports for a child that called `exit(code)`. -/
def exitedWith (code : Nat) : Nat := code % 256 * 256

/-- The wait status the kernel reports for a child killed by signal `sig`
(`1 ≤ sig < 127`), with or without a core dump (`core = 0x80`). -/
def killedBy (sig : Nat) (coreDump : Bool) : Nat := sig + (if coreDump then 128 else 0)

/-- A non-nil error returned by `exec.Cmd.Wait`: an `*exec.ExitError`, whose `Sys()`
is a `syscall.WaitStatus` (`some w`) or something else (`none`), or any other error. -/
inductive WaitError where
  | exitError (sys : Option Nat)
  | other (msg : String)
  deriving DecidableEq, Repr

/-- Go's `exec.Cmd.Wait` on a POSIX host, after `Process.Wait` gave `procWait` (the
child's wait status, or an error) and copying the streams gave `copyError`:
`if err != nil { return err } else if !state.Success() { return &ExitError{state} };
return copyError`, where `Success` is `ExitStatus() == 0`. -/
def cmdWait (procWait : Except String Nat) (copyError : Option String) : Option WaitError :=
  match procWait with
  | Except.error msg => some (WaitError.other msg)
  | Except.ok status =>
    if WaitStatus.ExitStatus status ≠ 0 then some (WaitError.exitError (some status))
    else copyError.map WaitError.other

/-- The value the background task of `Communicator.Start` passes to `cmd.SetExited`,
from the result `err` of `localCmd.Wait()`. -/
def recordedExitStatus (err : Option WaitError) : Int :=
  match err with
  | none => 0
  | some (WaitError.exitError sys) =>
    match sys with
    | some status => WaitStatus.ExitStatus status
    | none => 1
  | some (WaitError.other _) => 0

/-- Go's `strings.Contains`. -/
def stringsContains (s substr : String) : Bool := decide (substr.data <:+: s.data)

/-- What a call of `UploadDir` that does not panic did: the shell command it ran,
the environment of the command, and the error it returned (`none` is `nil`). -/
structure UploadDirResult where
  cpCmd : String
  env : List String
  err : Option String
  deriving DecidableEq, Repr

/-- Embedding of `Communicator.UploadDir`.  `run cpCmd env` is
`ShellCommand(cpCmd)` run with environment `env`: the error of `cmd.Run()` and the
captured stderr.  `environ` is `os.Environ()`.  The result is `none` when the index
expression `src[len(src)-1]` panics, which is when `src` is empty. -/
def UploadDir (join : String → String → String)
    (run : String → List String → Option String × String) (environ : List String)
    (Chroot dst src : String) (_exclude : List String) : Option UploadDirResult :=
  match src.data.getLast? with
  | none => none
  | some last =>
    let src := if last = '/' then src ++ "." else src
    let chrootDest := join Chroot dst
    let cpCmd := "cp -R '" ++ src ++ "' " ++ chrootDest
    let env := ["LANG=C"] ++ environ
    let (err, stderr) := run cpCmd env
    if err = none then some ⟨cpCmd, env, err⟩
    else if stringsContains stderr "No such file" then some ⟨cpCmd, env, none⟩
    else some ⟨cpCmd, env, none⟩

/-! ## Specification-side definitions -/

/-- A call to the host. -/
inductive HostCall where
  | mkdirAll (path : String)
  | tempDir
  | mount (device path : String)
  | umount (path : String)
  | remove (path : String)
  deriving DecidableEq, Repr

/-- Making one call on the host in state `w`: the host afterwards, and the event that
records the call with the outcome the host gave. -/
def Host.perform {σ : Type} (host : Host σ) (w : σ) : HostCall → σ × Event
  | HostCall.mkdirAll path =>
    ((host.mkdirAll w path).1, Event.mkdirAll path (host.mkdirAll w path).2)
  | HostCall.tempDir =>
    ((host.tempDir w).1, Event.tempDir (host.tempDir w).2.1 (host.tempDir w).2.2)
  | HostCall.mount device path =>
    ((host.mount w device path).1, Event.mount device path (host.mount w device path).2)
  | HostCall.umount path =>
    ((host.umount w path).1, Event.umount path (host.umount w path).2)
  | HostCall.remove path =>
    ((host.remove w path).1, Event.remove path (host.remove w path).2)

/-- Making every call of a list, one after the other, whatever the outcomes. -/
def performAll {σ : Type} (host : Host σ) : List HostCall → σ → σ × List Event
  | [], w => (w, [])
  | call :: rest, w =>
    ((performAll host rest (host.perform w call).1).1,
      (host.perform w call).2 :: (performAll host rest (host.perform w call).1).2)

/-- Making the calls of a list one after the other up to and including the first
that fails. -/
def performUntilFailure {σ : Type} (host : Host σ) : List HostCall → σ → σ × List Event
  | [], w => (w, [])
  | call :: rest, w =>
    if (host.perform w call).2.failed then
      ((host.perform w call).1, [(host.perform w call).2])
    else
      ((performUntilFailure host rest (host.perform w call).1).1,
        (host.perform w call).2 :: (performUntilFailure host rest (host.perform w call).1).2)

/-- The events that record a call to the host. -/
def Event.isHostCall : Event → Bool
  | Event.uiError _ => false
  | Event.uiMessage _ => false
  | Event.statePut _ _ => false
  | _ => true

/-- The calls to the host of a trace, with their outcomes, in order. -/
def hostEvents (trace : List Event) : List Event :=
  trace.filter Event.isHostCall

/-- The error a recorded host call returned, if it returned one. -/
def Event.error? : Event → Option String
  | Event.mkdirAll _ err => err
  | Event.tempDir _ err => err
  | Event.mount _ _ err => err
  | Event.umount _ err => err
  | Event.remove _ err => err
  | _ => none

/-- The error texts of the failing host calls of a trace, in order. -/
def failureTexts (trace : List Event) : List String :=
  trace.filterMap Event.error?

/-- A list of recorded host calls with, right after each failing one, the report of
its error to the ui. -/
def withReports : List Event → List Event
  | [] => []
  | e :: rest => e :: (e.error?.toList.map Event.uiError ++ withReports rest)

/-- The host calls `Cleanup` is to make for a plan under build root `root`: one
`umount` per plan entry, then the removal of the build root. -/
def cleanupCalls (join : String → String → String) (root : String)
    (plan : List Partition) : List HostCall :=
  plan.map (fun partition => HostCall.umount (join root partition.Mountpoint)) ++
    [HostCall.remove root]

/-- The host calls `Run` is to make for a plan under build root `root`: for each
plan entry the creation of its directory and then the mount of its device on it. -/
def mountingCalls (join : String → String → String) (root loopDevice : String) :
    List Partition → List HostCall
  | [] => []
  | partition :: rest =>
    HostCall.mkdirAll (join root partition.Mountpoint) ::
      HostCall.mount (loopDevice ++ "p" ++ toString partition.Index)
        (join root partition.Mountpoint) ::
      mountingCalls join root loopDevice rest

/-- The host call that resolves the build root: creating the configured path, or
asking for a temporary directory when none is configured. -/
def rootCall (s : StepMountImage) : HostCall :=
  if s.MouthPath ≠ "" then HostCall.mkdirAll s.MouthPath else HostCall.tempDir

/-- The build root: the configured path, or the temporary directory the host names
when none is configured. -/
def resolvedRoot {σ : Type} (host : Host σ) (s : StepMountImage) (w : σ) : String :=
  if s.MouthPath ≠ "" then s.MouthPath else (host.tempDir w).2.1

/-- The mountable partitions in declaration order: for each position `i` of
`partitions` whose mountpoint is not empty, the partition there with `Index` set to
the 1-based position `i + 1`. -/
def declaredMountable (partitions : List Partition) : List Partition :=
  (partitions.enum.filter (fun ip => decide (ip.2.Mountpoint ≠ ""))).map
    (fun ip => { ip.2 with Index := (ip.1 : Int) + 1 })

/-- The mountpoints of a plan, in plan order. -/
def planMountpoints (plan : List Partition) : List String :=
  plan.map (fun partition => partition.Mountpoint)

/-- A host on which the copy fails for lack of permission. -/
def deniedCopy (_cpCmd : String) (_env : List String) : Option String × String :=
  (some "exit status 1", "cp: cannot create directory: Permission denied")

/-- A host on which the copy succeeds. -/
def succeedingCopy (_cpCmd : String) (_env : List String) : Option String × String :=
  (none, "")

/-! ## The order on strings -/

theorem lexLess_irrefl (l : List Char) : lexLess l l = false := by
  induction l with
  | nil => rfl
  | cons a t ih => simp [lexLess, ih]

theorem lexLess_trans : ∀ (a b c : List Char),
    lexLess a b = true → lexLess b c = true → lexLess a c = true
  | [], [], _, h, _ => by simp [lexLess] at h
  | [], _ :: _, [], _, h => by simp [lexLess] at h
  | [], _ :: _, _ :: _, _, _ => by simp [lexLess]
  | _ :: _, [], _, h, _ => by simp [lexLess] at h
  | _ :: _, _ :: _, [], _, h => by simp [lexLess] at h
  | x :: xs, y :: ys, z :: zs, hxy, hyz => by
    simp only [lexLess] at hxy hyz ⊢
    by_cases h1 : x < y
    · by_cases h2 : y < z
      · simp [lt_trans h1 h2]
      · by_cases h3 : z < y
        · simp [h2, h3] at hyz
        · have hyz' : y = z := le_antisymm (not_lt.mp h3) (not_lt.mp h2)
          subst hyz'
          simp [h1]
    · by_cases h1' : y < x
      · simp [h1, h1'] at hxy
      · have hxy' : x = y := le_antisymm (not_lt.mp h1') (not_lt.mp h1)
        subst hxy'
        simp only [h1, if_false] at hxy
        by_cases h2 : x < z
        · simp [h2]
        · by_cases h3 : z < x
          · simp [h2, h3] at hyz
          · simp only [h2, h3, if_false] at hyz ⊢
            exact lexLess_trans xs ys zs hxy hyz

theorem lexLess_connected : ∀ (a b : List Char),
    lexLess a b = false → lexLess b a = false → a = b
  | [], [], _, _ => rfl
  | [], _ :: _, h, _ => by simp [lexLess] at h
  | _ :: _, [], _, h => by simp [lexLess] at h
  | x :: xs, y :: ys, hxy, hyx => by
    simp only [lexLess] at hxy hyx
    by_cases h1 : x < y
    · simp [h1] at hxy
    · by_cases h2 : y < x
      · simp [h2] at hyx
      · have hxy' : x = y := le_antisymm (not_lt.mp h2) (not_lt.mp h1)
        subst hxy'
        simp only [h1, if_false] at hxy hyx
        rw [lexLess_connected xs ys hxy hyx]

theorem lexLess_asymm (a b : List Char) (h : lexLess a b = true) : lexLess b a = false := by
  cases hba : lexLess b a with
  | false => rfl
  | true =>
    have := lexLess_trans a b a h hba
    rw [lexLess_irrefl] at this
    exact absurd this (by decide)

theorem lexLess_negTrans (a b c : List Char)
    (hab : lexLess a b = false) (hbc : lexLess b c = false) : lexLess a c = false := by
  cases hac : lexLess a c with
  | false => rfl
  | true =>
    -- `a < c`; compare `b` with `a`
    cases hba : lexLess b a with
    | true =>
      have := lexLess_trans b a c hba hac
      rw [hbc] at this
      exact absurd this (by decide)
    | false =>
      have hEq : a = b := lexLess_connected a b hab hba
      subst hEq
      rw [hbc] at hac
      exact absurd hac (by decide)

/-- The comparison `lexLess` is the lexicographic order of lists of characters. -/
theorem lexLess_iff_lt : ∀ (a b : List Char), lexLess a b = true ↔ List.lt a b
  | [], [] => by simp [lexLess]; intro h; cases h
  | [], _ :: _ => by simp [lexLess]; exact List.lt.nil _ _
  | _ :: _, [] => by simp [lexLess]; intro h; cases h
  | x :: xs, y :: ys => by
    simp only [lexLess]
    by_cases h1 : x < y
    · simp only [h1, if_true, true_iff]
      exact List.lt.head _ _ h1
    · by_cases h2 : y < x
      · simp only [h1, h2, if_true, if_false, Bool.false_eq_true, false_iff]
        intro h
        cases h with
        | head _ _ h => exact h1 h
        | tail _ h2' _ => exact h2' h2
      · simp only [h1, h2, if_false]
        rw [lexLess_iff_lt xs ys]
        constructor
        · intro h; exact List.lt.tail h1 h2 h
        · intro h
          cases h with
          | head _ _ h => exact absurd h h1
          | tail _ _ h => exact h

/-- The comparison `stringLess` is the order `<` of `String`. -/
theorem stringLess_iff_lt (s t : String) : stringLess s t = true ↔ s < t := by
  rw [String.lt_iff_toList_lt]
  exact (lexLess_iff_lt s.data t.data).trans (List.lt_iff_lex_lt _ _)

theorem stringLess_connected (s t : String)
    (h1 : stringLess s t = false) (h2 : stringLess t s = false) : s = t := by
  have := lexLess_connected s.data t.data h1 h2
  exact String.ext this

theorem mountLess_strictWeak (reverse : Bool) : StrictWeakOrdering (mountLess reverse) := by
  cases reverse with
  | false =>
    exact
      { irrefl := fun a => by simp [mountLess, stringLess, lexLess_irrefl]
        trans := fun a b c h1 h2 => by
          simp only [mountLess, stringLess, Bool.false_eq_true, if_false] at h1 h2 ⊢
          exact lexLess_trans _ _ _ h1 h2
        negTrans := fun a b c h1 h2 => by
          simp only [mountLess, stringLess, Bool.false_eq_true, if_false] at h1 h2 ⊢
          exact lexLess_negTrans _ _ _ h1 h2 }
  | true =>
    exact
      { irrefl := fun a => by simp [mountLess, stringLess, lexLess_irrefl]
        trans := fun a b c h1 h2 => by
          simp only [mountLess, stringLess, if_true] at h1 h2 ⊢
          exact lexLess_trans _ _ _ h2 h1
        negTrans := fun a b c h1 h2 => by
          simp only [mountLess, stringLess, if_true] at h1 h2 ⊢
          exact lexLess_negTrans _ _ _ h2 h1 }

/-! ## Insertion sort meets the contract of `sort.Slice` -/

theorem insertBackward_perm (less : Partition → Partition → Bool) (x : Partition)
    (l : List Partition) : (insertBackward less x l).Perm (x :: l) := by
  induction l with
  | nil => exact List.Perm.refl _
  | cons y ys ih =>
    simp only [insertBackward]
    split
    · exact ((List.Perm.cons y ih).trans (List.Perm.swap x y ys))
    · exact List.Perm.refl _

theorem foldl_insertBackward_perm (less : Partition → Partition → Bool)
    (l acc : List Partition) :
    (l.foldl (fun sortedRev x => insertBackward less x sortedRev) acc).Perm (l.reverse ++ acc) := by
  induction l generalizing acc with
  | nil => simp
  | cons x xs ih =>
    simp only [List.foldl_cons, List.reverse_cons, List.append_assoc, List.singleton_append]
    exact (ih _).trans (List.Perm.append_left _ (insertBackward_perm less x acc))

theorem insertBackward_sorted (less : Partition → Partition → Bool)
    (hless : StrictWeakOrdering less) (x : Partition) (l : List Partition)
    (hl : l.Pairwise (fun a b => less a b = false)) :
    (insertBackward less x l).Pairwise (fun a b => less a b = false) := by
  induction l with
  | nil => simp [insertBackward]
  | cons y ys ih =>
    rw [List.pairwise_cons] at hl
    simp only [insertBackward]
    split
    · rename_i hxy
      rw [List.pairwise_cons]
      refine ⟨?_, ih hl.2⟩
      intro b hb
      have hb' : b = x ∨ b ∈ ys :=
        List.mem_cons.mp ((List.Perm.mem_iff (insertBackward_perm less x ys)).mp hb)
      rcases hb' with hb' | hb'
      · -- `b = x`, and `x < y` forbids `y < x`
        rw [hb']
        cases hyx : less y x with
        | false => rfl
        | true =>
          have := hless.trans _ _ _ hxy hyx
          rw [hless.irrefl] at this
          exact absurd this (by decide)
      · exact hl.1 b hb'
    · rename_i hxy
      have hxy' : less x y = false := by simpa using hxy
      rw [List.pairwise_cons]
      refine ⟨?_, List.pairwise_cons.mpr hl⟩
      intro b hb
      simp only [List.mem_cons] at hb
      rcases hb with hb | hb
      · subst hb; exact hxy'
      · exact hless.negTrans _ _ _ hxy' (hl.1 b hb)

theorem foldl_insertBackward_sorted (less : Partition → Partition → Bool)
    (hless : StrictWeakOrdering less) (l acc : List Partition)
    (hacc : acc.Pairwise (fun a b => less a b = false)) :
    (l.foldl (fun sortedRev x => insertBackward less x sortedRev) acc).Pairwise
      (fun a b => less a b = false) := by
  induction l generalizing acc with
  | nil => simpa using hacc
  | cons x xs ih =>
    simp only [List.foldl_cons]
    exact ih _ (insertBackward_sorted less hless x acc hacc)

theorem insertionSortLessFunc_contract : SortSliceContract insertionSortLessFunc where
  perm := fun less l => by
    unfold insertionSortLessFunc
    refine (List.reverse_perm _).trans ?_
    refine (foldl_insertBackward_perm less l []).trans ?_
    simp
  sorted := fun less l hless => by
    unfold insertionSortLessFunc
    rw [List.pairwise_reverse]
    exact foldl_insertBackward_sorted less hless l [] List.Pairwise.nil

/-! ## Mount ordering -/

theorem mountableFrom_eq_enumFrom (i : Nat) (ps : List Partition) :
    mountableFrom i ps =
      ((ps.enumFrom i).filter (fun ip => decide (ip.2.Mountpoint ≠ ""))).map
        (fun ip => { ip.2 with Index := (ip.1 : Int) + 1 }) := by
  induction ps generalizing i with
  | nil => rfl
  | cons p rest ih =>
    simp only [mountableFrom, List.enumFrom_cons, List.filter_cons]
    by_cases h : p.Mountpoint = ""
    · simp [h, ih]
    · simp [h, ih]

theorem mountableFrom_eq_declared (ps : List Partition) :
    mountableFrom 0 ps = declaredMountable ps :=
  mountableFrom_eq_enumFrom 0 ps

theorem mountableFrom_mountpoints (i : Nat) (ps : List Partition) :
    planMountpoints (mountableFrom i ps) =
      (planMountpoints ps).filter (fun m => decide (m ≠ "")) := by
  induction ps generalizing i with
  | nil => rfl
  | cons p rest ih =>
    have ih' := ih (i + 1)
    simp only [planMountpoints] at ih' ⊢
    simp only [mountableFrom, List.map_cons, List.filter_cons]
    by_cases h : p.Mountpoint = ""
    · simp [h, ih']
    · simp [h, ih']

theorem mem_declaredMountable {ps : List Partition} {p : Partition}
    (hp : p ∈ declaredMountable ps) :
    ∃ (i : Nat) (q : Partition), ps[i]? = some q ∧ q.Mountpoint ≠ "" ∧
      p = { q with Index := (i : Int) + 1 } := by
  simp only [declaredMountable, List.mem_map, List.mem_filter] at hp
  obtain ⟨⟨i, q⟩, ⟨hmem, hne⟩, rfl⟩ := hp
  exact ⟨i, q, List.mk_mem_enum_iff_getElem?.mp hmem, by simpa using hne, rfl⟩

theorem length_declaredMountable (ps : List Partition) :
    (declaredMountable ps).length =
      (ps.filter (fun q => decide (q.Mountpoint ≠ ""))).length := by
  have h := congrArg List.length (mountableFrom_mountpoints 0 ps)
  rw [mountableFrom_eq_declared] at h
  simp only [planMountpoints, List.length_map] at h
  rw [h, List.filter_map, List.length_map]
  rfl

/-- C1: for every sort meeting the contract of `sort.Slice`, every partition list
and both values of `reverse`, the plan is a permutation of the mountable partitions
in declaration order (each with `Index` = its 1-based input position); so it holds no
empty mountpoint, has as many entries as the input has non-empty mountpoints, and
every entry is an input partition carrying its input position as `Index`. -/
theorem sortMountablePartitions_perm_declared (sortSlice : SliceSort)
    (hc : SortSliceContract sortSlice) (ps : List Partition) (reverse : Bool) :
    (sortMountablePartitions sortSlice ps reverse).Perm (declaredMountable ps) ∧
    (∀ p ∈ sortMountablePartitions sortSlice ps reverse, p.Mountpoint ≠ "") ∧
    (sortMountablePartitions sortSlice ps reverse).length =
      (ps.filter (fun q => decide (q.Mountpoint ≠ ""))).length ∧
    (∀ p ∈ sortMountablePartitions sortSlice ps reverse,
      ∃ (i : Nat) (q : Partition), ps[i]? = some q ∧ p = { q with Index := (i : Int) + 1 }) := by
  have hperm : (sortMountablePartitions sortSlice ps reverse).Perm (declaredMountable ps) := by
    unfold sortMountablePartitions
    rw [← mountableFrom_eq_declared]
    exact hc.perm _ _
  refine ⟨hperm, ?_, ?_, ?_⟩
  · intro p hp
    obtain ⟨i, q, _, hne, rfl⟩ := mem_declaredMountable (hperm.mem_iff.mp hp)
    exact hne
  · rw [hperm.length_eq, length_declaredMountable]
  · intro p hp
    obtain ⟨i, q, hq, _, rfl⟩ := mem_declaredMountable (hperm.mem_iff.mp hp)
    exact ⟨i, q, hq, rfl⟩

theorem sortMountablePartitions_perm_declared_witness :
    SortSliceContract insertionSortLessFunc ∧
    (sortMountablePartitions insertionSortLessFunc
        [⟨0, "/data"⟩, ⟨0, ""⟩, ⟨0, "/"⟩, ⟨0, "/boot"⟩] true).Perm
      (declaredMountable [⟨0, "/data"⟩, ⟨0, ""⟩, ⟨0, "/"⟩, ⟨0, "/boot"⟩]) :=
  ⟨insertionSortLessFunc_contract,
    (sortMountablePartitions_perm_declared insertionSortLessFunc
      insertionSortLessFunc_contract [⟨0, "/data"⟩, ⟨0, ""⟩, ⟨0, "/"⟩, ⟨0, "/boot"⟩] true).1⟩

theorem plan_ascending (sortSlice : SliceSort) (hc : SortSliceContract sortSlice)
    (ps : List Partition) :
    (planMountpoints (sortMountablePartitions sortSlice ps false)).Pairwise
      (fun s t => stringLess t s = false) := by
  have h := hc.sorted (mountLess false) (mountableFrom 0 ps) (mountLess_strictWeak false)
  simp only [planMountpoints, sortMountablePartitions, List.pairwise_map]
  refine h.imp ?_
  intro a b hab
  simpa [mountLess] using hab

theorem plan_descending (sortSlice : SliceSort) (hc : SortSliceContract sortSlice)
    (ps : List Partition) :
    (planMountpoints (sortMountablePartitions sortSlice ps true)).Pairwise
      (fun s t => stringLess s t = false) := by
  have h := hc.sorted (mountLess true) (mountableFrom 0 ps) (mountLess_strictWeak true)
  simp only [planMountpoints, sortMountablePartitions, List.pairwise_map]
  refine h.imp ?_
  intro a b hab
  simpa [mountLess] using hab

theorem plan_mountpoints_perm (sortSlice : SliceSort) (hc : SortSliceContract sortSlice)
    (ps : List Partition) (reverse : Bool) :
    (planMountpoints (sortMountablePartitions sortSlice ps reverse)).Perm
      ((planMountpoints ps).filter (fun m => decide (m ≠ ""))) := by
  rw [← mountableFrom_mountpoints 0 ps]
  exact (hc.perm _ _).map _

theorem ascending_unique {l₁ l₂ : List String} (hp : l₁.Perm l₂)
    (h₁ : l₁.Pairwise (fun s t => stringLess t s = false))
    (h₂ : l₂.Pairwise (fun s t => stringLess t s = false)) : l₁ = l₂ := by
  haveI : IsAntisymm String (fun s t => stringLess t s = false) :=
    ⟨fun a b hab hba => stringLess_connected a b hba hab⟩
  exact List.eq_of_perm_of_sorted hp h₁ h₂

theorem descending_unique {l₁ l₂ : List String} (hp : l₁.Perm l₂)
    (h₁ : l₁.Pairwise (fun s t => stringLess s t = false))
    (h₂ : l₂.Pairwise (fun s t => stringLess s t = false)) : l₁ = l₂ := by
  haveI : IsAntisymm String (fun s t => stringLess s t = false) :=
    ⟨fun a b hab hba => stringLess_connected a b hab hba⟩
  exact List.eq_of_perm_of_sorted hp h₁ h₂

/-- C2: for every sort meeting the contract of `sort.Slice` and every partition list,
the mountpoints of the ascending plan are in non-decreasing order (no mountpoint is
smaller than an earlier one) and those of the descending plan in non-increasing
order; and for partitions with mountpoints "/", "/boot", "/data" declared in any
order the ascending plan reads "/", "/boot", "/data" and the descending plan
"/data", "/boot", "/". -/
theorem sortMountablePartitions_ordered (sortSlice : SliceSort)
    (hc : SortSliceContract sortSlice) (ps : List Partition) :
    (planMountpoints (sortMountablePartitions sortSlice ps false)).Pairwise
      (fun s t => stringLess t s = false) ∧
    (planMountpoints (sortMountablePartitions sortSlice ps true)).Pairwise
      (fun s t => stringLess s t = false) ∧
    ((planMountpoints ps).Perm ["/", "/boot", "/data"] →
      planMountpoints (sortMountablePartitions sortSlice ps false) = ["/", "/boot", "/data"] ∧
      planMountpoints (sortMountablePartitions sortSlice ps true) = ["/data", "/boot", "/"]) := by
  refine ⟨plan_ascending sortSlice hc ps, plan_descending sortSlice hc ps, ?_⟩
  intro hps
  have hfilter : ((planMountpoints ps).filter (fun m => decide (m ≠ ""))).Perm
      ["/", "/boot", "/data"] := by
    have h := hps.filter (fun m => decide (m ≠ ""))
    have hkeep : (["/", "/boot", "/data"] : List String).filter (fun m => decide (m ≠ "")) =
        ["/", "/boot", "/data"] := by decide
    rwa [hkeep] at h
  constructor
  · refine ascending_unique ((plan_mountpoints_perm sortSlice hc ps false).trans hfilter)
      (plan_ascending sortSlice hc ps) ?_
    decide
  · refine descending_unique
      (((plan_mountpoints_perm sortSlice hc ps true).trans hfilter).trans ?_)
      (plan_descending sortSlice hc ps) ?_
    · decide
    · decide

theorem sortMountablePartitions_ordered_witness :
    SortSliceContract insertionSortLessFunc ∧
    (planMountpoints [⟨0, "/data"⟩, ⟨0, "/"⟩, ⟨0, "/boot"⟩]).Perm ["/", "/boot", "/data"] ∧
    planMountpoints (sortMountablePartitions insertionSortLessFunc
      [⟨0, "/data"⟩, ⟨0, "/"⟩, ⟨0, "/boot"⟩] false) = ["/", "/boot", "/data"] ∧
    planMountpoints (sortMountablePartitions insertionSortLessFunc
      [⟨0, "/data"⟩, ⟨0, "/"⟩, ⟨0, "/boot"⟩] true) = ["/data", "/boot", "/"] :=
  ⟨insertionSortLessFunc_contract, by decide,
    (sortMountablePartitions_ordered insertionSortLessFunc insertionSortLessFunc_contract
      [⟨0, "/data"⟩, ⟨0, "/"⟩, ⟨0, "/boot"⟩]).2.2 (by decide)⟩

/-- From a permutation of a list with pairwise distinct mountpoints that is ordered
without ever stepping up, every step is a strict step down. -/
theorem strictly_descending_of_distinct {m l : List Partition} (hp : l.Perm m)
    (hnd : (planMountpoints m).Nodup)
    (hl : l.Pairwise (fun a b => stringLess a.Mountpoint b.Mountpoint = false)) :
    l.Pairwise (fun a b => stringLess b.Mountpoint a.Mountpoint = true) := by
  have hnd' : (planMountpoints l).Nodup := (hp.map _).nodup_iff.mpr hnd
  have hne : l.Pairwise (fun a b => a.Mountpoint ≠ b.Mountpoint) := by
    simpa [planMountpoints, List.Nodup, List.pairwise_map] using hnd'
  refine (hl.and hne).imp ?_
  intro a b hab
  cases hba : stringLess b.Mountpoint a.Mountpoint with
  | true => rfl
  | false => exact absurd (stringLess_connected _ _ hab.1 hba) hab.2

/-- C3 as stated fails: on two partitions sharing a mountpoint the insertion sort that
`sort.Slice` runs never swaps, for either comparison, so both plans keep declaration
order and the descending plan is not the reverse of the ascending one. -/
theorem descending_ne_reverse_ascending :
    sortMountablePartitions insertionSortLessFunc [⟨0, "/a"⟩, ⟨0, "/a"⟩] false =
      [⟨1, "/a"⟩, ⟨2, "/a"⟩] ∧
    sortMountablePartitions insertionSortLessFunc [⟨0, "/a"⟩, ⟨0, "/a"⟩] true =
      [⟨1, "/a"⟩, ⟨2, "/a"⟩] ∧
    sortMountablePartitions insertionSortLessFunc [⟨0, "/a"⟩, ⟨0, "/a"⟩] true ≠
      (sortMountablePartitions insertionSortLessFunc [⟨0, "/a"⟩, ⟨0, "/a"⟩] false).reverse := by
  decide

/-- C3, amended: for every sort meeting the contract of `sort.Slice` and every
partition list whose non-empty mountpoints are pairwise distinct, the descending plan
is the exact reverse of the ascending plan. -/
theorem descending_eq_reverse_ascending (sortSlice : SliceSort)
    (hc : SortSliceContract sortSlice) (ps : List Partition)
    (hnd : ((planMountpoints ps).filter (fun m => decide (m ≠ ""))).Nodup) :
    sortMountablePartitions sortSlice ps true =
      (sortMountablePartitions sortSlice ps false).reverse := by
  have hnd' : (planMountpoints (mountableFrom 0 ps)).Nodup := by
    rw [mountableFrom_mountpoints]; exact hnd
  have hD : (sortMountablePartitions sortSlice ps true).Perm (mountableFrom 0 ps) :=
    hc.perm _ _
  have hA : (sortMountablePartitions sortSlice ps false).reverse.Perm (mountableFrom 0 ps) :=
    (List.reverse_perm _).trans (hc.perm _ _)
  have hDs : (sortMountablePartitions sortSlice ps true).Pairwise
      (fun a b => stringLess a.Mountpoint b.Mountpoint = false) := by
    have h := hc.sorted (mountLess true) (mountableFrom 0 ps) (mountLess_strictWeak true)
    exact h.imp (fun hab => by simpa [mountLess] using hab)
  have hAs : (sortMountablePartitions sortSlice ps false).reverse.Pairwise
      (fun a b => stringLess a.Mountpoint b.Mountpoint = false) := by
    rw [List.pairwise_reverse]
    have h := hc.sorted (mountLess false) (mountableFrom 0 ps) (mountLess_strictWeak false)
    exact h.imp (fun hab => by simpa [mountLess] using hab)
  haveI : IsAntisymm Partition
      (fun a b => stringLess b.Mountpoint a.Mountpoint = true) :=
    ⟨fun a b hab hba => by
      have := lexLess_asymm _ _ hab
      simp only [stringLess] at hba
      rw [hba] at this
      exact absurd this (by decide)⟩
  exact List.eq_of_perm_of_sorted (hD.trans hA.symm)
    (strictly_descending_of_distinct hD hnd' hDs)
    (strictly_descending_of_distinct hA hnd' hAs)

theorem descending_eq_reverse_ascending_witness :
    SortSliceContract insertionSortLessFunc ∧
    ((planMountpoints [⟨0, "/data"⟩, ⟨0, ""⟩, ⟨0, "/"⟩, ⟨0, ""⟩, ⟨0, "/boot"⟩]).filter
      (fun m => decide (m ≠ ""))).Nodup ∧
    sortMountablePartitions insertionSortLessFunc
        [⟨0, "/data"⟩, ⟨0, ""⟩, ⟨0, "/"⟩, ⟨0, ""⟩, ⟨0, "/boot"⟩] true =
      (sortMountablePartitions insertionSortLessFunc
        [⟨0, "/data"⟩, ⟨0, ""⟩, ⟨0, "/"⟩, ⟨0, ""⟩, ⟨0, "/boot"⟩] false).reverse :=
  ⟨insertionSortLessFunc_contract, by decide,
    descending_eq_reverse_ascending insertionSortLessFunc insertionSortLessFunc_contract
      [⟨0, "/data"⟩, ⟨0, ""⟩, ⟨0, "/"⟩, ⟨0, ""⟩, ⟨0, "/boot"⟩] (by decide)⟩

/-! ## Reading a trace: splitting at an append -/

theorem umountCalls_append (a b : List Event) :
    umountCalls (a ++ b) = umountCalls a ++ umountCalls b := by
  induction a with
  | nil => rfl
  | cons e t ih => cases e <;> simp [umountCalls, ih]

theorem removeCalls_append (a b : List Event) :
    removeCalls (a ++ b) = removeCalls a ++ removeCalls b := by
  induction a with
  | nil => rfl
  | cons e t ih => cases e <;> simp [removeCalls, ih]

theorem mountCalls_append (a b : List Event) :
    mountCalls (a ++ b) = mountCalls a ++ mountCalls b := by
  induction a with
  | nil => rfl
  | cons e t ih => cases e <;> simp [mountCalls, ih]

theorem statePuts_append (a b : List Event) :
    statePuts (a ++ b) = statePuts a ++ statePuts b := by
  induction a with
  | nil => rfl
  | cons e t ih => cases e <;> simp [statePuts, ih]

theorem uiErrors_append (a b : List Event) :
    uiErrors (a ++ b) = uiErrors a ++ uiErrors b := by
  induction a with
  | nil => rfl
  | cons e t ih => cases e <;> simp [uiErrors, ih]

/-! ## Cleanup -/

theorem umountLoop_calls {σ : Type} (host : Host σ) (join : String → String → String)
    (root : String) (plan : List Partition) (w : σ) :
    umountCalls (umountLoop host join root plan w).2 =
      plan.map (fun partition => join root partition.Mountpoint) := by
  induction plan generalizing w with
  | nil => rfl
  | cons p rest ih =>
    simp only [umountLoop, List.map_cons]
    rcases h : host.umount w (join root p.Mountpoint) with ⟨w1, _ | err⟩
    · simp [umountCalls, ih]
    · simp [umountCalls, ih]

theorem umountLoop_errors {σ : Type} (host : Host σ) (join : String → String → String)
    (root : String) (plan : List Partition) (w : σ) :
    uiErrors (umountLoop host join root plan w).2 =
      umountFailures (umountLoop host join root plan w).2 := by
  induction plan generalizing w with
  | nil => rfl
  | cons p rest ih =>
    simp only [umountLoop]
    rcases h : host.umount w (join root p.Mountpoint) with ⟨w1, _ | err⟩
    · simp [uiErrors, umountFailures, ih]
    · simp [uiErrors, umountFailures, ih]

theorem umountLoop_no_remove {σ : Type} (host : Host σ) (join : String → String → String)
    (root : String) (plan : List Partition) (w : σ) :
    removeCalls (umountLoop host join root plan w).2 = [] := by
  induction plan generalizing w with
  | nil => rfl
  | cons p rest ih =>
    simp only [umountLoop]
    rcases h : host.umount w (join root p.Mountpoint) with ⟨w1, _ | err⟩
    · simp [removeCalls, ih]
    · simp [removeCalls, ih]

theorem withReports_append (a b : List Event) :
    withReports (a ++ b) = withReports a ++ withReports b := by
  induction a with
  | nil => rfl
  | cons e t ih => simp [withReports, ih]

theorem performAll_append {σ : Type} (host : Host σ) (a b : List HostCall) (w : σ) :
    performAll host (a ++ b) w =
      ((performAll host b (performAll host a w).1).1,
        (performAll host a w).2 ++ (performAll host b (performAll host a w).1).2) := by
  induction a generalizing w with
  | nil => rfl
  | cons c rest ih => simp [performAll, ih]

theorem umountLoop_replay {σ : Type} (host : Host σ) (join : String → String → String)
    (root : String) (plan : List Partition) (w : σ) :
    umountLoop host join root plan w =
      ((performAll host
          (plan.map (fun partition => HostCall.umount (join root partition.Mountpoint))) w).1,
        withReports (performAll host
          (plan.map (fun partition => HostCall.umount (join root partition.Mountpoint))) w).2) := by
  induction plan generalizing w with
  | nil => rfl
  | cons p rest ih =>
    simp only [umountLoop, List.map_cons, performAll, Host.perform]
    rcases h : host.umount w (join root p.Mountpoint) with ⟨w1, _ | err⟩
    · simp [withReports, Event.error?, ih]
    · simp [withReports, Event.error?, ih]

/-- What `Cleanup` does on a step with a build root: the unmount loop, then the
`os.Remove` call on the host the loop left, with the report of its error if any. -/
theorem Cleanup_trace {σ : Type} (sortSlice : SliceSort) (join : String → String → String)
    (host : Host σ) (ps : List Partition) (s : StepMountImage) (w : σ)
    (hroot : s.MouthPath ≠ "") :
    (Cleanup sortSlice join host ps s w).trace =
      (umountLoop host join s.MouthPath (sortMountablePartitions sortSlice ps true) w).2 ++
        (Event.remove s.MouthPath (host.remove (umountLoop host join s.MouthPath
            (sortMountablePartitions sortSlice ps true) w).1 s.MouthPath).2 ::
          (host.remove (umountLoop host join s.MouthPath
            (sortMountablePartitions sortSlice ps true) w).1 s.MouthPath).2.toList.map
              Event.uiError) ∧
    (Cleanup sortSlice join host ps s w).world =
      (host.remove (umountLoop host join s.MouthPath
        (sortMountablePartitions sortSlice ps true) w).1 s.MouthPath).1 ∧
    (Cleanup sortSlice join host ps s w).step =
      { s with mountpoints := [], MouthPath := "" } := by
  simp only [Cleanup, hroot, ne_eq, not_false_eq_true, if_true]
  rcases h : host.remove
      (umountLoop host join s.MouthPath (sortMountablePartitions sortSlice ps true) w).1
      s.MouthPath with ⟨w2, _ | err⟩
  · exact ⟨by simp, rfl, rfl⟩
  · exact ⟨by simp, rfl, rfl⟩

/-- C4: for every partition list, every non-empty recorded build root and every host
(so every pattern of failing `umount` calls), what `Cleanup` does is exactly this:
it calls the host's `umount` on the path `join root Mountpoint` of every entry of the
descending plan, in plan order and whatever the earlier outcomes, then calls the
host's `os.Remove` on the build root, and reports to the ui, right after each call
that failed, the error of that call and nothing else; the host is left as those
calls leave it.  So the `umount` calls are the paths of the descending plan, one
each, the errors reported while unmounting are those of the failing `umount` calls,
the removal is the only one and comes last, and the step ends with no mountpoints
and `MouthPath = ""`. -/
theorem Cleanup_unmounts_descending_plan {σ : Type} (sortSlice : SliceSort)
    (join : String → String → String) (host : Host σ) (ps : List Partition)
    (s : StepMountImage) (w : σ) (hroot : s.MouthPath ≠ "") :
    (Cleanup sortSlice join host ps s w).trace =
      withReports (performAll host
        (cleanupCalls join s.MouthPath (sortMountablePartitions sortSlice ps true)) w).2 ∧
    (Cleanup sortSlice join host ps s w).world =
      (performAll host
        (cleanupCalls join s.MouthPath (sortMountablePartitions sortSlice ps true)) w).1 ∧
    umountCalls (Cleanup sortSlice join host ps s w).trace =
      (sortMountablePartitions sortSlice ps true).map
        (fun partition => join s.MouthPath partition.Mountpoint) ∧
    (∃ (unmounting : List Event) (removeErr : Option String),
      (Cleanup sortSlice join host ps s w).trace =
        unmounting ++ (Event.remove s.MouthPath removeErr :: removeErr.toList.map Event.uiError) ∧
      umountCalls unmounting = (sortMountablePartitions sortSlice ps true).map
        (fun partition => join s.MouthPath partition.Mountpoint) ∧
      uiErrors unmounting = umountFailures unmounting ∧
      removeCalls unmounting = []) ∧
    removeCalls (Cleanup sortSlice join host ps s w).trace = [s.MouthPath] ∧
    (Cleanup sortSlice join host ps s w).step.mountpoints = [] ∧
    (Cleanup sortSlice join host ps s w).step.MouthPath = "" := by
  obtain ⟨htrace, hworld, hstep⟩ := Cleanup_trace sortSlice join host ps s w hroot
  have hloop := umountLoop_replay host join s.MouthPath
    (sortMountablePartitions sortSlice ps true) w
  have htail : ∀ e : Option String,
      umountCalls (Event.remove s.MouthPath e :: e.toList.map Event.uiError) = [] ∧
      removeCalls (Event.remove s.MouthPath e :: e.toList.map Event.uiError) = [s.MouthPath] := by
    intro e
    cases e <;> simp [umountCalls, removeCalls]
  refine ⟨?_, ?_, ?_, ⟨_, _, htrace, umountLoop_calls _ _ _ _ _, umountLoop_errors _ _ _ _ _,
    umountLoop_no_remove _ _ _ _ _⟩, ?_, ?_, ?_⟩
  · rw [htrace, hloop]
    simp only [cleanupCalls, performAll_append, withReports_append, performAll, Host.perform,
      withReports, Event.error?, List.append_nil]
  · rw [hworld, hloop]
    simp only [cleanupCalls, performAll_append, performAll, Host.perform]
  · rw [htrace, umountCalls_append, (htail _).1, List.append_nil, umountLoop_calls]
  · rw [htrace, removeCalls_append, (htail _).2, umountLoop_no_remove, List.nil_append]
  · rw [hstep]
  · rw [hstep]

theorem Cleanup_unmounts_descending_plan_witness :
    ("/mnt" : String) ≠ "" ∧
    (Cleanup insertionSortLessFunc filepathJoin scriptedHost
        [⟨0, "/"⟩, ⟨0, ""⟩, ⟨0, "/boot"⟩] ⟨"loop", "root", "/mnt", ["/mnt", "/mnt/boot"]⟩
        [some "target is busy", none, some "directory not empty"]).trace =
      [Event.umount "/mnt/boot" (some "target is busy"), Event.uiError "target is busy",
       Event.umount "/mnt" none,
       Event.remove "/mnt" (some "directory not empty"), Event.uiError "directory not empty"] ∧
    (Cleanup insertionSortLessFunc filepathJoin scriptedHost
        [⟨0, "/"⟩, ⟨0, ""⟩, ⟨0, "/boot"⟩] ⟨"loop", "root", "/mnt", ["/mnt", "/mnt/boot"]⟩
        [some "target is busy", none, some "directory not empty"]).trace =
      withReports (performAll scriptedHost
        (cleanupCalls filepathJoin "/mnt"
          (sortMountablePartitions insertionSortLessFunc [⟨0, "/"⟩, ⟨0, ""⟩, ⟨0, "/boot"⟩] true))
        [some "target is busy", none, some "directory not empty"]).2 :=
  ⟨by decide, by decide,
    (Cleanup_unmounts_descending_plan insertionSortLessFunc filepathJoin scriptedHost
      [⟨0, "/"⟩, ⟨0, ""⟩, ⟨0, "/boot"⟩] ⟨"loop", "root", "/mnt", ["/mnt", "/mnt/boot"]⟩
      [some "target is busy", none, some "directory not empty"] (by decide)).1⟩

/-- C6 as stated fails: on a step with no build root but a recorded mountpoint,
`Cleanup` does nothing, so after one call and after two calls the mountpoints are
still recorded, not empty. -/
theorem Cleanup_keeps_mountpoints_without_root :
    (Cleanup insertionSortLessFunc filepathJoin scriptedHost [⟨0, "/x"⟩]
        ⟨"loop", "root", "", ["/x"]⟩ []).step.mountpoints = ["/x"] ∧
    (Cleanup insertionSortLessFunc filepathJoin scriptedHost [⟨0, "/x"⟩]
        (Cleanup insertionSortLessFunc filepathJoin scriptedHost [⟨0, "/x"⟩]
          ⟨"loop", "root", "", ["/x"]⟩ []).step
        (Cleanup insertionSortLessFunc filepathJoin scriptedHost [⟨0, "/x"⟩]
          ⟨"loop", "root", "", ["/x"]⟩ []).world).step.mountpoints = ["/x"] ∧
    (Cleanup insertionSortLessFunc filepathJoin scriptedHost [⟨0, "/x"⟩]
        ⟨"loop", "root", "", ["/x"]⟩ []).step.mountpoints ≠ [] := by
  decide

/-- C6, amended: for every step state, configuration, host and host state, a second
`Cleanup` right after a first does nothing: it issues no host call and no ui error
(its trace is empty), and leaves the step and the host as the first call left them,
with `MouthPath = ""`.  After the first call the mountpoints are empty when the step
had a build root before it, and are what they were when it had none.  And `Cleanup`
on a step with an empty build root does nothing at all. -/
theorem Cleanup_idempotent {σ : Type} (sortSlice : SliceSort)
    (join : String → String → String) (host : Host σ) (ps : List Partition)
    (s : StepMountImage) (w : σ) :
    (Cleanup sortSlice join host ps (Cleanup sortSlice join host ps s w).step
        (Cleanup sortSlice join host ps s w).world).trace = [] ∧
    (Cleanup sortSlice join host ps (Cleanup sortSlice join host ps s w).step
        (Cleanup sortSlice join host ps s w).world).step =
      (Cleanup sortSlice join host ps s w).step ∧
    (Cleanup sortSlice join host ps (Cleanup sortSlice join host ps s w).step
        (Cleanup sortSlice join host ps s w).world).world =
      (Cleanup sortSlice join host ps s w).world ∧
    (Cleanup sortSlice join host ps s w).step.MouthPath = "" ∧
    (s.MouthPath ≠ "" → (Cleanup sortSlice join host ps s w).step.mountpoints = []) ∧
    (s.MouthPath = "" →
      (Cleanup sortSlice join host ps s w).trace = [] ∧
      (Cleanup sortSlice join host ps s w).step = s ∧
      (Cleanup sortSlice join host ps s w).world = w) := by
  have hnoop : ∀ (t : StepMountImage) (v : σ), t.MouthPath = "" →
      Cleanup sortSlice join host ps t v = ⟨t, v, []⟩ := by
    intro t v ht
    simp [Cleanup, ht]
  have hempty : (Cleanup sortSlice join host ps s w).step.MouthPath = "" := by
    by_cases hroot : s.MouthPath = ""
    · rw [hnoop s w hroot]; exact hroot
    · obtain ⟨_, _, hstep⟩ := Cleanup_trace sortSlice join host ps s w hroot
      rw [hstep]
  refine ⟨?_, ?_, ?_, hempty, ?_, ?_⟩
  · rw [hnoop _ _ hempty]
  · rw [hnoop _ _ hempty]
  · rw [hnoop _ _ hempty]
  · intro hroot
    obtain ⟨_, _, hstep⟩ := Cleanup_trace sortSlice join host ps s w hroot
    rw [hstep]
  · intro hroot
    rw [hnoop s w hroot]
    exact ⟨rfl, rfl, rfl⟩

theorem Cleanup_idempotent_witness :
    ("/mnt" : String) ≠ "" ∧
    (Cleanup insertionSortLessFunc filepathJoin scriptedHost [⟨0, "/"⟩, ⟨0, "/boot"⟩]
        (Cleanup insertionSortLessFunc filepathJoin scriptedHost [⟨0, "/"⟩, ⟨0, "/boot"⟩]
          ⟨"loop", "root", "/mnt", ["/mnt", "/mnt/boot"]⟩ [some "target is busy"]).step
        (Cleanup insertionSortLessFunc filepathJoin scriptedHost [⟨0, "/"⟩, ⟨0, "/boot"⟩]
          ⟨"loop", "root", "/mnt", ["/mnt", "/mnt/boot"]⟩ [some "target is busy"]).world).trace
      = [] ∧
    (Cleanup insertionSortLessFunc filepathJoin scriptedHost [⟨0, "/"⟩, ⟨0, "/boot"⟩]
        ⟨"loop", "root", "/mnt", ["/mnt", "/mnt/boot"]⟩ [some "target is busy"]).step.mountpoints
      = [] :=
  ⟨by decide,
    (Cleanup_idempotent insertionSortLessFunc filepathJoin scriptedHost [⟨0, "/"⟩, ⟨0, "/boot"⟩]
      ⟨"loop", "root", "/mnt", ["/mnt", "/mnt/boot"]⟩ [some "target is busy"]).1,
    (Cleanup_idempotent insertionSortLessFunc filepathJoin scriptedHost [⟨0, "/"⟩, ⟨0, "/boot"⟩]
      ⟨"loop", "root", "/mnt", ["/mnt", "/mnt/boot"]⟩ [some "target is busy"]).2.2.2.2.1
      (by decide)⟩

/-! ## Run -/

theorem mountLoop_mkdir_failed {σ : Type} (host : Host σ) (join : String → String → String)
    (root loopDevice : String) (p : Partition) (rest : List Partition) (w w1 : σ)
    (mps : List String) (err : String)
    (h1 : host.mkdirAll w (join root p.Mountpoint) = (w1, some err)) :
    mountLoop host join root loopDevice (p :: rest) w mps =
      ⟨w1, mps, [Event.mkdirAll (join root p.Mountpoint) (some err), Event.uiError err],
        false⟩ := by
  simp only [mountLoop, h1]

theorem mountLoop_mount_failed {σ : Type} (host : Host σ) (join : String → String → String)
    (root loopDevice : String) (p : Partition) (rest : List Partition) (w w1 w2 : σ)
    (mps : List String) (err : String)
    (h1 : host.mkdirAll w (join root p.Mountpoint) = (w1, none))
    (h2 : host.mount w1 (devicePath loopDevice p) (join root p.Mountpoint) = (w2, some err)) :
    mountLoop host join root loopDevice (p :: rest) w mps =
      ⟨w2, mps,
        [Event.mkdirAll (join root p.Mountpoint) none,
         Event.uiMessage ("mounting " ++ devicePath loopDevice p ++ " to " ++
           join root p.Mountpoint),
         Event.mount (devicePath loopDevice p) (join root p.Mountpoint) (some err),
         Event.uiError err], false⟩ := by
  simp only [mountLoop, h1, h2]

theorem mountLoop_mounted {σ : Type} (host : Host σ) (join : String → String → String)
    (root loopDevice : String) (p : Partition) (rest : List Partition) (w w1 w2 : σ)
    (mps : List String)
    (h1 : host.mkdirAll w (join root p.Mountpoint) = (w1, none))
    (h2 : host.mount w1 (devicePath loopDevice p) (join root p.Mountpoint) = (w2, none)) :
    mountLoop host join root loopDevice (p :: rest) w mps =
      ⟨(mountLoop host join root loopDevice rest w2 (mps ++ [join root p.Mountpoint])).world,
        (mountLoop host join root loopDevice rest w2 (mps ++ [join root p.Mountpoint])).mountpoints,
        [Event.mkdirAll (join root p.Mountpoint) none,
         Event.uiMessage ("mounting " ++ devicePath loopDevice p ++ " to " ++
           join root p.Mountpoint),
         Event.mount (devicePath loopDevice p) (join root p.Mountpoint) none] ++
        (mountLoop host join root loopDevice rest w2 (mps ++ [join root p.Mountpoint])).trace,
        (mountLoop host join root loopDevice rest w2 (mps ++ [join root p.Mountpoint])).completed⟩ := by
  simp only [mountLoop, h1, h2]

theorem mountLoop_quiet {σ : Type} (host : Host σ) (join : String → String → String)
    (root loopDevice : String) (plan : List Partition) (w : σ) (mps : List String) :
    umountCalls (mountLoop host join root loopDevice plan w mps).trace = [] ∧
    statePuts (mountLoop host join root loopDevice plan w mps).trace = [] := by
  induction plan generalizing w mps with
  | nil => exact ⟨rfl, rfl⟩
  | cons p rest ih =>
    rcases h1 : host.mkdirAll w (join root p.Mountpoint) with ⟨w1, _ | err⟩
    · rcases h2 : host.mount w1 (devicePath loopDevice p) (join root p.Mountpoint)
        with ⟨w2, _ | err⟩
      · rw [mountLoop_mounted host join root loopDevice p rest w w1 w2 mps h1 h2]
        simp [umountCalls, statePuts, ih]
      · rw [mountLoop_mount_failed host join root loopDevice p rest w w1 w2 mps err h1 h2]
        simp [umountCalls, statePuts]
    · rw [mountLoop_mkdir_failed host join root loopDevice p rest w w1 mps err h1]
      simp [umountCalls, statePuts]

theorem mountLoop_calls {σ : Type} (host : Host σ) (join : String → String → String)
    (root loopDevice : String) (plan : List Partition) (w : σ) (mps : List String) :
    mountCalls (mountLoop host join root loopDevice plan w mps).trace <+:
        plan.map (mountTarget join root loopDevice) ∧
    ((mountLoop host join root loopDevice plan w mps).completed = true →
      mountCalls (mountLoop host join root loopDevice plan w mps).trace =
        plan.map (mountTarget join root loopDevice)) := by
  induction plan generalizing w mps with
  | nil => exact ⟨List.prefix_refl _, fun _ => rfl⟩
  | cons p rest ih =>
    rcases h1 : host.mkdirAll w (join root p.Mountpoint) with ⟨w1, _ | err⟩
    · rcases h2 : host.mount w1 (devicePath loopDevice p) (join root p.Mountpoint)
        with ⟨w2, _ | err⟩
      · rw [mountLoop_mounted host join root loopDevice p rest w w1 w2 mps h1 h2]
        have ih' := ih w2 (mps ++ [join root p.Mountpoint])
        have hcalls : ∀ T : List Event,
            mountCalls ([Event.mkdirAll (join root p.Mountpoint) none,
              Event.uiMessage ("mounting " ++ devicePath loopDevice p ++ " to " ++
                join root p.Mountpoint),
              Event.mount (devicePath loopDevice p) (join root p.Mountpoint) none] ++ T) =
            mountTarget join root loopDevice p :: mountCalls T := fun _ => rfl
        simp only [hcalls, List.map_cons]
        refine ⟨?_, fun hc => ?_⟩
        · exact (List.prefix_cons_inj _).mpr ih'.1
        · rw [ih'.2 hc]
      · rw [mountLoop_mount_failed host join root loopDevice p rest w w1 w2 mps err h1 h2]
        simp only [mountCalls, mountTarget, List.map_cons]
        refine ⟨?_, fun hc => by simp at hc⟩
        exact (List.prefix_cons_inj _).mpr (List.nil_prefix)
    · rw [mountLoop_mkdir_failed host join root loopDevice p rest w w1 mps err h1]
      simp only [mountCalls]
      exact ⟨List.nil_prefix, fun hc => by simp at hc⟩

theorem mountLoop_completed {σ : Type} (host : Host σ) (join : String → String → String)
    (root loopDevice : String) (plan : List Partition) (w : σ) (mps : List String)
    (hc : (mountLoop host join root loopDevice plan w mps).completed = true) :
    (∀ e ∈ (mountLoop host join root loopDevice plan w mps).trace, e.failed = false) ∧
    uiErrors (mountLoop host join root loopDevice plan w mps).trace = [] ∧
    (mountLoop host join root loopDevice plan w mps).mountpoints =
      mps ++ plan.map (fun partition => join root partition.Mountpoint) := by
  induction plan generalizing w mps with
  | nil => simp [mountLoop, uiErrors]
  | cons p rest ih =>
    rcases h1 : host.mkdirAll w (join root p.Mountpoint) with ⟨w1, _ | err⟩
    · rcases h2 : host.mount w1 (devicePath loopDevice p) (join root p.Mountpoint)
        with ⟨w2, _ | err⟩
      · rw [mountLoop_mounted host join root loopDevice p rest w w1 w2 mps h1 h2] at hc ⊢
        have ih' := ih w2 (mps ++ [join root p.Mountpoint]) hc
        refine ⟨?_, ?_, ?_⟩
        · intro e he
          simp only [List.cons_append, List.nil_append, List.mem_cons] at he
          rcases he with rfl | rfl | rfl | he
          · rfl
          · rfl
          · rfl
          · exact ih'.1 e he
        · simp [uiErrors, ih'.2.1]
        · simp [ih'.2.2]
      · rw [mountLoop_mount_failed host join root loopDevice p rest w w1 w2 mps err h1 h2] at hc
        simp at hc
    · rw [mountLoop_mkdir_failed host join root loopDevice p rest w w1 mps err h1] at hc
      simp at hc

theorem mountLoop_halted {σ : Type} (host : Host σ) (join : String → String → String)
    (root loopDevice : String) (plan : List Partition) (w : σ) (mps : List String)
    (hc : (mountLoop host join root loopDevice plan w mps).completed = false) :
    ∃ (before : List Event) (op : Event) (msg : String),
      (mountLoop host join root loopDevice plan w mps).trace =
        before ++ [op, Event.uiError msg] ∧
      op.failed = true ∧ (∀ e ∈ before, e.failed = false) ∧ uiErrors before = [] := by
  induction plan generalizing w mps with
  | nil => simp [mountLoop] at hc
  | cons p rest ih =>
    rcases h1 : host.mkdirAll w (join root p.Mountpoint) with ⟨w1, _ | err⟩
    · rcases h2 : host.mount w1 (devicePath loopDevice p) (join root p.Mountpoint)
        with ⟨w2, _ | err⟩
      · rw [mountLoop_mounted host join root loopDevice p rest w w1 w2 mps h1 h2] at hc ⊢
        obtain ⟨before, op, msg, htr, hop, hbefore, herr⟩ :=
          ih w2 (mps ++ [join root p.Mountpoint]) hc
        refine ⟨[Event.mkdirAll (join root p.Mountpoint) none,
          Event.uiMessage ("mounting " ++ devicePath loopDevice p ++ " to " ++
            join root p.Mountpoint),
          Event.mount (devicePath loopDevice p) (join root p.Mountpoint) none] ++ before,
          op, msg, ?_, hop, ?_, ?_⟩
        · simp only [htr, List.append_assoc]
        · intro e he
          simp only [List.cons_append, List.nil_append, List.mem_cons] at he
          rcases he with rfl | rfl | rfl | he
          · rfl
          · rfl
          · rfl
          · exact hbefore e he
        · simp [uiErrors, herr]
      · rw [mountLoop_mount_failed host join root loopDevice p rest w w1 w2 mps err h1 h2]
        refine ⟨[Event.mkdirAll (join root p.Mountpoint) none,
          Event.uiMessage ("mounting " ++ devicePath loopDevice p ++ " to " ++
            join root p.Mountpoint)],
          Event.mount (devicePath loopDevice p) (join root p.Mountpoint) (some err), err,
          by simp, rfl, ?_, by simp [uiErrors]⟩
        intro e he
        simp only [List.mem_cons, List.mem_singleton] at he
        rcases he with rfl | rfl | he
        · rfl
        · rfl
        · simp at he
    · rw [mountLoop_mkdir_failed host join root loopDevice p rest w w1 mps err h1]
      exact ⟨[], Event.mkdirAll (join root p.Mountpoint) (some err), err, by simp, rfl,
        by simp, rfl⟩

theorem runMounts_spec {σ : Type} (sortSlice : SliceSort) (join : String → String → String)
    (host : Host σ) (ps : List Partition) (loopDevice : String) (s : StepMountImage) (w : σ)
    (e0 : Event) (hfail : e0.failed = false) (hmount : mountCalls [e0] = [])
    (humount : umountCalls [e0] = []) (hput : statePuts [e0] = []) :
    (runMounts sortSlice join host ps loopDevice s w [e0]).step.MouthPath = s.MouthPath ∧
    mountCalls (runMounts sortSlice join host ps loopDevice s w [e0]).trace <+:
      (sortMountablePartitions sortSlice ps false).map
        (mountTarget join s.MouthPath loopDevice) ∧
    umountCalls (runMounts sortSlice join host ps loopDevice s w [e0]).trace = [] ∧
    ((runMounts sortSlice join host ps loopDevice s w [e0]).action = StepAction.ActionHalt →
      statePuts (runMounts sortSlice join host ps loopDevice s w [e0]).trace = [] ∧
      ∃ (before : List Event) (op : Event) (msg : String),
        (runMounts sortSlice join host ps loopDevice s w [e0]).trace =
          before ++ [op, Event.uiError msg] ∧
        op.failed = true ∧ ∀ e ∈ before, e.failed = false) ∧
    ((runMounts sortSlice join host ps loopDevice s w [e0]).action = StepAction.ActionContinue →
      (∀ e ∈ (runMounts sortSlice join host ps loopDevice s w [e0]).trace, e.failed = false) ∧
      mountCalls (runMounts sortSlice join host ps loopDevice s w [e0]).trace =
        (sortMountablePartitions sortSlice ps false).map
          (mountTarget join s.MouthPath loopDevice) ∧
      (runMounts sortSlice join host ps loopDevice s w [e0]).step.mountpoints =
        s.mountpoints ++ (sortMountablePartitions sortSlice ps false).map
          (fun partition => join s.MouthPath partition.Mountpoint) ∧
      statePuts (runMounts sortSlice join host ps loopDevice s w [e0]).trace =
        [(s.ResultKey, s.MouthPath)]) := by
  have hq := mountLoop_quiet host join s.MouthPath loopDevice
    (sortMountablePartitions sortSlice ps false) w s.mountpoints
  have hcalls := mountLoop_calls host join s.MouthPath loopDevice
    (sortMountablePartitions sortSlice ps false) w s.mountpoints
  cases hc : (mountLoop host join s.MouthPath loopDevice
      (sortMountablePartitions sortSlice ps false) w s.mountpoints).completed with
  | true =>
    have hdone := mountLoop_completed host join s.MouthPath loopDevice
      (sortMountablePartitions sortSlice ps false) w s.mountpoints hc
    have hr : runMounts sortSlice join host ps loopDevice s w [e0] =
        ⟨{ s with mountpoints := (mountLoop host join s.MouthPath loopDevice
            (sortMountablePartitions sortSlice ps false) w s.mountpoints).mountpoints },
          (mountLoop host join s.MouthPath loopDevice
            (sortMountablePartitions sortSlice ps false) w s.mountpoints).world,
          [e0] ++ (mountLoop host join s.MouthPath loopDevice
            (sortMountablePartitions sortSlice ps false) w s.mountpoints).trace ++
            [Event.statePut s.ResultKey s.MouthPath],
          StepAction.ActionContinue⟩ := by
      simp only [runMounts, hc, if_true]
    rw [hr]
    refine ⟨rfl, ?_, ?_, fun h => by simp at h, fun _ => ⟨?_, ?_, ?_, ?_⟩⟩
    · simp only [mountCalls_append, hmount, List.nil_append]
      rw [hcalls.2 hc]
      simp [mountCalls]
    · simp only [umountCalls_append, humount, hq.1]
      rfl
    · intro e he
      simp only [List.append_assoc, List.mem_append, List.mem_singleton] at he
      rcases he with rfl | he | rfl
      · exact hfail
      · exact hdone.1 e he
      · rfl
    · simp only [mountCalls_append, hmount, List.nil_append]
      rw [hcalls.2 hc]
      simp [mountCalls]
    · exact hdone.2.2
    · simp only [statePuts_append, hput, hq.2]
      rfl
  | false =>
    obtain ⟨before, op, msg, htr, hop, hbefore, _⟩ := mountLoop_halted host join s.MouthPath
      loopDevice (sortMountablePartitions sortSlice ps false) w s.mountpoints hc
    have hr : runMounts sortSlice join host ps loopDevice s w [e0] =
        ⟨{ s with mountpoints := (mountLoop host join s.MouthPath loopDevice
            (sortMountablePartitions sortSlice ps false) w s.mountpoints).mountpoints },
          (mountLoop host join s.MouthPath loopDevice
            (sortMountablePartitions sortSlice ps false) w s.mountpoints).world,
          [e0] ++ (mountLoop host join s.MouthPath loopDevice
            (sortMountablePartitions sortSlice ps false) w s.mountpoints).trace,
          StepAction.ActionHalt⟩ := by
      simp [runMounts, hc]
    rw [hr]
    refine ⟨rfl, ?_, ?_, fun _ => ⟨?_, e0 :: before, op, msg, ?_, hop, ?_⟩,
      fun h => by simp at h⟩
    · simp only [mountCalls_append, hmount, List.nil_append]
      exact hcalls.1
    · simp only [umountCalls_append, humount, hq.1]
      rfl
    · simp only [statePuts_append, hput, hq.2]
      rfl
    · simp [htr]
    · intro e he
      rcases List.mem_cons.mp he with rfl | he
      · exact hfail
      · exact hbefore e he

/-- The outcome of `Run` read off its trace, with the build root as the step records
it afterwards. -/
theorem Run_outcome {σ : Type} (sortSlice : SliceSort)
    (join : String → String → String) (host : Host σ) (ps : List Partition)
    (loopDevice : String) (s : StepMountImage) (w : σ) :
    mountCalls (Run sortSlice join host ps loopDevice s w).trace <+:
      (sortMountablePartitions sortSlice ps false).map
        (mountTarget join (Run sortSlice join host ps loopDevice s w).step.MouthPath
          loopDevice) ∧
    umountCalls (Run sortSlice join host ps loopDevice s w).trace = [] ∧
    ((Run sortSlice join host ps loopDevice s w).action = StepAction.ActionHalt ↔
      ∃ e ∈ (Run sortSlice join host ps loopDevice s w).trace, e.failed = true) ∧
    ((Run sortSlice join host ps loopDevice s w).action = StepAction.ActionContinue ↔
      ∀ e ∈ (Run sortSlice join host ps loopDevice s w).trace, e.failed = false) ∧
    ((Run sortSlice join host ps loopDevice s w).action = StepAction.ActionHalt →
      statePuts (Run sortSlice join host ps loopDevice s w).trace = [] ∧
      ∃ (before : List Event) (op : Event) (msg : String),
        (Run sortSlice join host ps loopDevice s w).trace =
          before ++ [op, Event.uiError msg] ∧
        op.failed = true ∧ ∀ e ∈ before, e.failed = false) ∧
    ((Run sortSlice join host ps loopDevice s w).action = StepAction.ActionContinue →
      mountCalls (Run sortSlice join host ps loopDevice s w).trace =
        (sortMountablePartitions sortSlice ps false).map
          (mountTarget join (Run sortSlice join host ps loopDevice s w).step.MouthPath
            loopDevice) ∧
      (Run sortSlice join host ps loopDevice s w).step.mountpoints =
        s.mountpoints ++ (sortMountablePartitions sortSlice ps false).map
          (fun partition =>
            join (Run sortSlice join host ps loopDevice s w).step.MouthPath
              partition.Mountpoint) ∧
      statePuts (Run sortSlice join host ps loopDevice s w).trace =
        [(s.ResultKey, (Run sortSlice join host ps loopDevice s w).step.MouthPath)]) := by
  -- the facts from which the two equivalences follow
  suffices h :
      mountCalls (Run sortSlice join host ps loopDevice s w).trace <+:
        (sortMountablePartitions sortSlice ps false).map
          (mountTarget join (Run sortSlice join host ps loopDevice s w).step.MouthPath
            loopDevice) ∧
      umountCalls (Run sortSlice join host ps loopDevice s w).trace = [] ∧
      ((Run sortSlice join host ps loopDevice s w).action = StepAction.ActionHalt →
        statePuts (Run sortSlice join host ps loopDevice s w).trace = [] ∧
        ∃ (before : List Event) (op : Event) (msg : String),
          (Run sortSlice join host ps loopDevice s w).trace =
            before ++ [op, Event.uiError msg] ∧
          op.failed = true ∧ ∀ e ∈ before, e.failed = false) ∧
      ((Run sortSlice join host ps loopDevice s w).action = StepAction.ActionContinue →
        (∀ e ∈ (Run sortSlice join host ps loopDevice s w).trace, e.failed = false) ∧
        mountCalls (Run sortSlice join host ps loopDevice s w).trace =
          (sortMountablePartitions sortSlice ps false).map
            (mountTarget join (Run sortSlice join host ps loopDevice s w).step.MouthPath
              loopDevice) ∧
        (Run sortSlice join host ps loopDevice s w).step.mountpoints =
          s.mountpoints ++ (sortMountablePartitions sortSlice ps false).map
            (fun partition =>
              join (Run sortSlice join host ps loopDevice s w).step.MouthPath
                partition.Mountpoint) ∧
        statePuts (Run sortSlice join host ps loopDevice s w).trace =
          [(s.ResultKey, (Run sortSlice join host ps loopDevice s w).step.MouthPath)]) by
    obtain ⟨hpre, hum, hhalt, hcont⟩ := h
    have hHaltFails : (Run sortSlice join host ps loopDevice s w).action =
        StepAction.ActionHalt →
        ∃ e ∈ (Run sortSlice join host ps loopDevice s w).trace, e.failed = true := by
      intro ha
      obtain ⟨_, before, op, msg, htr, hop, _⟩ := hhalt ha
      exact ⟨op, by rw [htr]; simp, hop⟩
    refine ⟨hpre, hum, ⟨hHaltFails, ?_⟩, ⟨fun ha => (hcont ha).1, ?_⟩, hhalt,
      fun ha => (hcont ha).2⟩
    · rintro ⟨e, he, hf⟩
      cases ha : (Run sortSlice join host ps loopDevice s w).action with
      | ActionHalt => rfl
      | ActionContinue =>
        have := (hcont ha).1 e he
        rw [hf] at this
        exact absurd this (by decide)
    · intro hall
      cases ha : (Run sortSlice join host ps loopDevice s w).action with
      | ActionContinue => rfl
      | ActionHalt =>
        obtain ⟨e, he, hf⟩ := hHaltFails ha
        rw [hall e he] at hf
        exact absurd hf (by decide)
  by_cases hlen : s.MouthPath.length > 0
  · rcases h1 : host.mkdirAll w s.MouthPath with ⟨w1, _ | err⟩
    · have hr : Run sortSlice join host ps loopDevice s w =
          runMounts sortSlice join host ps loopDevice s w1
            [Event.mkdirAll s.MouthPath none] := by
        simp only [Run, hlen, if_true, h1]
      rw [hr]
      obtain ⟨hroot, hpre, hum, hhalt, hcont⟩ := runMounts_spec sortSlice join host ps
        loopDevice s w1 (Event.mkdirAll s.MouthPath none) rfl rfl rfl rfl
      rw [hroot]
      exact ⟨hpre, hum, hhalt, hcont⟩
    · have hr : Run sortSlice join host ps loopDevice s w =
          ⟨s, w1, [Event.mkdirAll s.MouthPath (some err), Event.uiError err],
            StepAction.ActionHalt⟩ := by
        simp only [Run, hlen, if_true, h1]
      rw [hr]
      refine ⟨List.nil_prefix, rfl, fun _ => ⟨rfl, [], _, err, rfl, rfl, by simp⟩,
        fun h => by simp at h⟩
  · rcases h1 : host.tempDir w with ⟨w1, tempdir, _ | err⟩
    · have hr : Run sortSlice join host ps loopDevice s w =
          runMounts sortSlice join host ps loopDevice { s with MouthPath := tempdir } w1
            [Event.tempDir tempdir none] := by
        simp only [Run, hlen, if_false, h1]
      rw [hr]
      obtain ⟨hroot, hpre, hum, hhalt, hcont⟩ := runMounts_spec sortSlice join host ps
        loopDevice { s with MouthPath := tempdir } w1 (Event.tempDir tempdir none)
        rfl rfl rfl rfl
      rw [hroot]
      exact ⟨hpre, hum, hhalt, hcont⟩
    · have hr : Run sortSlice join host ps loopDevice s w =
          ⟨s, w1, [Event.tempDir tempdir (some err), Event.uiError err],
            StepAction.ActionHalt⟩ := by
        simp only [Run, hlen, if_false, h1]
      rw [hr]
      refine ⟨List.nil_prefix, rfl, fun _ => ⟨rfl, [], _, err, rfl, rfl, by simp⟩,
        fun h => by simp at h⟩

theorem length_pos_iff_ne_empty (t : String) : t.length > 0 ↔ t ≠ "" := by
  constructor
  · intro h ht
    rw [ht] at h
    exact absurd h (by decide)
  · intro h
    have hd : t.data ≠ [] := fun hd => h (String.ext hd)
    exact List.length_pos.mpr hd

theorem hostEvents_append (a b : List Event) :
    hostEvents (a ++ b) = hostEvents a ++ hostEvents b := by
  simp [hostEvents]

theorem failureTexts_append (a b : List Event) :
    failureTexts (a ++ b) = failureTexts a ++ failureTexts b := by
  simp [failureTexts]

theorem mountLoop_replay {σ : Type} (host : Host σ) (join : String → String → String)
    (root loopDevice : String) (plan : List Partition) (w : σ) (mps : List String) :
    hostEvents (mountLoop host join root loopDevice plan w mps).trace =
      (performUntilFailure host (mountingCalls join root loopDevice plan) w).2 ∧
    (mountLoop host join root loopDevice plan w mps).world =
      (performUntilFailure host (mountingCalls join root loopDevice plan) w).1 ∧
    uiErrors (mountLoop host join root loopDevice plan w mps).trace =
      failureTexts (mountLoop host join root loopDevice plan w mps).trace := by
  induction plan generalizing w mps with
  | nil => exact ⟨rfl, rfl, rfl⟩
  | cons p rest ih =>
    rcases h1 : host.mkdirAll w (join root p.Mountpoint) with ⟨w1, _ | err⟩
    · rcases h2 : host.mount w1 (devicePath loopDevice p) (join root p.Mountpoint)
        with ⟨w2, _ | err⟩
      · rw [mountLoop_mounted host join root loopDevice p rest w w1 w2 mps h1 h2]
        have ih' := ih w2 (mps ++ [join root p.Mountpoint])
        have h2' : host.mount w1 (loopDevice ++ "p" ++ toString p.Index)
            (join root p.Mountpoint) = (w2, none) := h2
        simp only [mountingCalls, performUntilFailure, Host.perform, h1, h2', Event.failed,
          Bool.false_eq_true, if_false]
        refine ⟨?_, ih'.2.1, ?_⟩
        · rw [hostEvents_append, ih'.1]
          rfl
        · rw [uiErrors_append, failureTexts_append, ih'.2.2]
          rfl
      · rw [mountLoop_mount_failed host join root loopDevice p rest w w1 w2 mps err h1 h2]
        have h2' : host.mount w1 (loopDevice ++ "p" ++ toString p.Index)
            (join root p.Mountpoint) = (w2, some err) := h2
        simp [mountingCalls, performUntilFailure, Host.perform, h1, h2', Event.failed,
          hostEvents, Event.isHostCall, uiErrors, failureTexts, Event.error?, devicePath]
    · rw [mountLoop_mkdir_failed host join root loopDevice p rest w w1 mps err h1]
      simp [mountingCalls, performUntilFailure, Host.perform, h1, Event.failed,
        hostEvents, Event.isHostCall, uiErrors, failureTexts, Event.error?]

theorem runMounts_replay {σ : Type} (sortSlice : SliceSort) (join : String → String → String)
    (host : Host σ) (ps : List Partition) (loopDevice : String) (s : StepMountImage) (w : σ)
    (e0 : Event) (hcall : hostEvents [e0] = [e0]) (hui : uiErrors [e0] = [])
    (herr : failureTexts [e0] = []) :
    hostEvents (runMounts sortSlice join host ps loopDevice s w [e0]).trace =
      e0 :: (performUntilFailure host
        (mountingCalls join s.MouthPath loopDevice
          (sortMountablePartitions sortSlice ps false)) w).2 ∧
    (runMounts sortSlice join host ps loopDevice s w [e0]).world =
      (performUntilFailure host
        (mountingCalls join s.MouthPath loopDevice
          (sortMountablePartitions sortSlice ps false)) w).1 ∧
    uiErrors (runMounts sortSlice join host ps loopDevice s w [e0]).trace =
      failureTexts (runMounts sortSlice join host ps loopDevice s w [e0]).trace := by
  obtain ⟨hev, hw, hrep⟩ := mountLoop_replay host join s.MouthPath loopDevice
    (sortMountablePartitions sortSlice ps false) w s.mountpoints
  cases hc : (mountLoop host join s.MouthPath loopDevice
      (sortMountablePartitions sortSlice ps false) w s.mountpoints).completed with
  | true =>
    simp only [runMounts, hc, if_true]
    refine ⟨?_, hw, ?_⟩
    · rw [hostEvents_append, hostEvents_append, hcall, hev]
      simp [hostEvents, Event.isHostCall]
    · rw [uiErrors_append, uiErrors_append, failureTexts_append, failureTexts_append,
        hui, herr, hrep]
      rfl
  | false =>
    simp only [runMounts, hc, Bool.false_eq_true, if_false]
    refine ⟨?_, hw, ?_⟩
    · rw [hostEvents_append, hcall, hev]
      rfl
    · rw [uiErrors_append, failureTexts_append, hui, herr, hrep]

/-- The host calls of `Run` and the build root it records. -/
theorem Run_replay {σ : Type} (sortSlice : SliceSort) (join : String → String → String)
    (host : Host σ) (ps : List Partition) (loopDevice : String) (s : StepMountImage) (w : σ) :
    hostEvents (Run sortSlice join host ps loopDevice s w).trace =
      (performUntilFailure host
        (rootCall s :: mountingCalls join (resolvedRoot host s w) loopDevice
          (sortMountablePartitions sortSlice ps false)) w).2 ∧
    (Run sortSlice join host ps loopDevice s w).world =
      (performUntilFailure host
        (rootCall s :: mountingCalls join (resolvedRoot host s w) loopDevice
          (sortMountablePartitions sortSlice ps false)) w).1 ∧
    uiErrors (Run sortSlice join host ps loopDevice s w).trace =
      failureTexts (Run sortSlice join host ps loopDevice s w).trace ∧
    ((host.perform w (rootCall s)).2.failed = false →
      (Run sortSlice join host ps loopDevice s w).step.MouthPath = resolvedRoot host s w) ∧
    ((host.perform w (rootCall s)).2.failed = true →
      (Run sortSlice join host ps loopDevice s w).step = s ∧
      mountCalls (Run sortSlice join host ps loopDevice s w).trace = [] ∧
      (Run sortSlice join host ps loopDevice s w).action = StepAction.ActionHalt) := by
  by_cases hlen : s.MouthPath.length > 0
  · have hne : s.MouthPath ≠ "" := (length_pos_iff_ne_empty _).mp hlen
    have hcall : rootCall s = HostCall.mkdirAll s.MouthPath := by simp [rootCall, hne]
    have hroot : resolvedRoot host s w = s.MouthPath := by simp [resolvedRoot, hne]
    rw [hcall, hroot]
    rcases h1 : host.mkdirAll w s.MouthPath with ⟨w1, _ | err⟩
    · have hr : Run sortSlice join host ps loopDevice s w =
          runMounts sortSlice join host ps loopDevice s w1
            [Event.mkdirAll s.MouthPath none] := by
        simp only [Run, hlen, if_true, h1]
      obtain ⟨hev, hw, hrep⟩ := runMounts_replay sortSlice join host ps loopDevice s w1
        (Event.mkdirAll s.MouthPath none) rfl rfl rfl
      obtain ⟨hpath, _⟩ := runMounts_spec sortSlice join host ps loopDevice s w1
        (Event.mkdirAll s.MouthPath none) rfl rfl rfl rfl
      rw [hr]
      simp only [performUntilFailure, Host.perform, h1, Event.failed, Bool.false_eq_true,
        if_false]
      exact ⟨hev, hw, hrep, fun _ => hpath, fun h => by simp at h⟩
    · have hr : Run sortSlice join host ps loopDevice s w =
          ⟨s, w1, [Event.mkdirAll s.MouthPath (some err), Event.uiError err],
            StepAction.ActionHalt⟩ := by
        simp only [Run, hlen, if_true, h1]
      rw [hr]
      simp [performUntilFailure, Host.perform, h1, Event.failed, hostEvents,
        Event.isHostCall, uiErrors, failureTexts, Event.error?, mountCalls]
  · have hne : s.MouthPath = "" := by
      by_contra h
      exact hlen ((length_pos_iff_ne_empty _).mpr h)
    have hcall : rootCall s = HostCall.tempDir := by simp [rootCall, hne]
    have hroot : resolvedRoot host s w = (host.tempDir w).2.1 := by simp [resolvedRoot, hne]
    rw [hcall, hroot]
    rcases h1 : host.tempDir w with ⟨w1, tempdir, _ | err⟩
    · have hr : Run sortSlice join host ps loopDevice s w =
          runMounts sortSlice join host ps loopDevice { s with MouthPath := tempdir } w1
            [Event.tempDir tempdir none] := by
        simp only [Run, hlen, if_false, h1]
      obtain ⟨hev, hw, hrep⟩ := runMounts_replay sortSlice join host ps loopDevice
        { s with MouthPath := tempdir } w1 (Event.tempDir tempdir none) rfl rfl rfl
      obtain ⟨hpath, _⟩ := runMounts_spec sortSlice join host ps loopDevice
        { s with MouthPath := tempdir } w1 (Event.tempDir tempdir none) rfl rfl rfl rfl
      rw [hr]
      simp only [performUntilFailure, Host.perform, h1, Event.failed, Bool.false_eq_true,
        if_false]
      exact ⟨hev, hw, hrep, fun _ => hpath, fun h => by simp at h⟩
    · have hr : Run sortSlice join host ps loopDevice s w =
          ⟨s, w1, [Event.tempDir tempdir (some err), Event.uiError err],
            StepAction.ActionHalt⟩ := by
        simp only [Run, hlen, if_false, h1]
      rw [hr]
      simp [performUntilFailure, Host.perform, h1, Event.failed, hostEvents,
        Event.isHostCall, uiErrors, failureTexts, Event.error?, mountCalls]

/-- C5: for every partition list, loop device, step and host (so every outcome of the
build-root creation, the directory creations and the mounts), with `root` the build
root (the configured path, or the temporary directory the host names): the host calls
of `Run` are, in order, the call that resolves the root and then for each entry of the
ascending plan the host's `os.MkdirAll` on `join root Mountpoint` and the host's
`mount` of `loopDevice ++ "p" ++ decimal(Index)` on it, cut right after the first call
that fails, and the host is left as those calls leave it; the errors reported to the
ui are those of the failing calls; once the root is resolved it is the recorded
`MouthPath`.  So the `mount` calls are an initial part of the ascending plan; `Run`
issues no `umount`; it returns `ActionHalt` exactly when some host call failed, and
then that call and the report of its error are the last thing `Run` did and nothing is
published; it returns `ActionContinue` exactly when no host call failed, and then the
whole plan was mounted, the recorded mountpoints are the earlier ones (none on a fresh
step) followed by the plan's paths in order, and `root` is published under
`ResultKey`. -/
theorem Run_mounts_ascending_plan {σ : Type} (sortSlice : SliceSort)
    (join : String → String → String) (host : Host σ) (ps : List Partition)
    (loopDevice : String) (s : StepMountImage) (w : σ) :
    hostEvents (Run sortSlice join host ps loopDevice s w).trace =
      (performUntilFailure host
        (rootCall s :: mountingCalls join (resolvedRoot host s w) loopDevice
          (sortMountablePartitions sortSlice ps false)) w).2 ∧
    (Run sortSlice join host ps loopDevice s w).world =
      (performUntilFailure host
        (rootCall s :: mountingCalls join (resolvedRoot host s w) loopDevice
          (sortMountablePartitions sortSlice ps false)) w).1 ∧
    uiErrors (Run sortSlice join host ps loopDevice s w).trace =
      failureTexts (Run sortSlice join host ps loopDevice s w).trace ∧
    ((host.perform w (rootCall s)).2.failed = false →
      (Run sortSlice join host ps loopDevice s w).step.MouthPath = resolvedRoot host s w) ∧
    mountCalls (Run sortSlice join host ps loopDevice s w).trace <+:
      (sortMountablePartitions sortSlice ps false).map
        (mountTarget join (resolvedRoot host s w) loopDevice) ∧
    umountCalls (Run sortSlice join host ps loopDevice s w).trace = [] ∧
    ((Run sortSlice join host ps loopDevice s w).action = StepAction.ActionHalt ↔
      ∃ e ∈ (Run sortSlice join host ps loopDevice s w).trace, e.failed = true) ∧
    ((Run sortSlice join host ps loopDevice s w).action = StepAction.ActionContinue ↔
      ∀ e ∈ (Run sortSlice join host ps loopDevice s w).trace, e.failed = false) ∧
    ((Run sortSlice join host ps loopDevice s w).action = StepAction.ActionHalt →
      statePuts (Run sortSlice join host ps loopDevice s w).trace = [] ∧
      ∃ (before : List Event) (op : Event) (msg : String),
        (Run sortSlice join host ps loopDevice s w).trace =
          before ++ [op, Event.uiError msg] ∧
        op.failed = true ∧ ∀ e ∈ before, e.failed = false) ∧
    ((Run sortSlice join host ps loopDevice s w).action = StepAction.ActionContinue →
      (Run sortSlice join host ps loopDevice s w).step.MouthPath = resolvedRoot host s w ∧
      mountCalls (Run sortSlice join host ps loopDevice s w).trace =
        (sortMountablePartitions sortSlice ps false).map
          (mountTarget join (resolvedRoot host s w) loopDevice) ∧
      (Run sortSlice join host ps loopDevice s w).step.mountpoints =
        s.mountpoints ++ (sortMountablePartitions sortSlice ps false).map
          (fun partition => join (resolvedRoot host s w) partition.Mountpoint) ∧
      statePuts (Run sortSlice join host ps loopDevice s w).trace =
        [(s.ResultKey, resolvedRoot host s w)]) := by
  obtain ⟨hev, hw, hrep, hok, hfail⟩ := Run_replay sortSlice join host ps loopDevice s w
  obtain ⟨hpre, hum, hhalt, hcont, hhalt', hcont'⟩ :=
    Run_outcome sortSlice join host ps loopDevice s w
  refine ⟨hev, hw, hrep, hok, ?_, hum, hhalt, hcont, hhalt', ?_⟩
  · cases hf : (host.perform w (rootCall s)).2.failed with
    | false => rw [← hok hf]; exact hpre
    | true => rw [(hfail hf).2.1]; exact List.nil_prefix
  · intro ha
    cases hf : (host.perform w (rootCall s)).2.failed with
    | false =>
      have hroot := hok hf
      obtain ⟨h1, h2, h3⟩ := hcont' ha
      rw [hroot] at h1 h2 h3
      exact ⟨hroot, h1, h2, h3⟩
    | true =>
      rw [(hfail hf).2.2] at ha
      exact absurd ha (by decide)

theorem Run_mounts_ascending_plan_witness :
    (Run insertionSortLessFunc filepathJoin scriptedHost
        [⟨0, "/boot"⟩, ⟨0, ""⟩, ⟨0, "/"⟩] "/dev/loop0" ⟨"loop", "root", "", []⟩
        []).trace =
      [Event.tempDir "/tmp/build" none,
       Event.mkdirAll "/tmp/build" none,
       Event.uiMessage "mounting /dev/loop0p3 to /tmp/build",
       Event.mount "/dev/loop0p3" "/tmp/build" none,
       Event.mkdirAll "/tmp/build/boot" none,
       Event.uiMessage "mounting /dev/loop0p1 to /tmp/build/boot",
       Event.mount "/dev/loop0p1" "/tmp/build/boot" none,
       Event.statePut "root" "/tmp/build"] ∧
    (Run insertionSortLessFunc filepathJoin scriptedHost
        [⟨0, "/boot"⟩, ⟨0, ""⟩, ⟨0, "/"⟩] "/dev/loop0" ⟨"loop", "root", "", []⟩
        []).step.mountpoints = ["/tmp/build", "/tmp/build/boot"] ∧
    (Run insertionSortLessFunc filepathJoin scriptedHost
        [⟨0, "/boot"⟩, ⟨0, ""⟩, ⟨0, "/"⟩] "/dev/loop0" ⟨"loop", "root", "/mnt", []⟩
        [none, none, none, none, some "mount: wrong fs type"]).trace =
      [Event.mkdirAll "/mnt" none,
       Event.mkdirAll "/mnt" none,
       Event.uiMessage "mounting /dev/loop0p3 to /mnt",
       Event.mount "/dev/loop0p3" "/mnt" none,
       Event.mkdirAll "/mnt/boot" none,
       Event.uiMessage "mounting /dev/loop0p1 to /mnt/boot",
       Event.mount "/dev/loop0p1" "/mnt/boot" (some "mount: wrong fs type"),
       Event.uiError "mount: wrong fs type"] ∧
    (Run insertionSortLessFunc filepathJoin scriptedHost
        [⟨0, "/boot"⟩, ⟨0, ""⟩, ⟨0, "/"⟩] "/dev/loop0" ⟨"loop", "root", "/mnt", []⟩
        [none, none, none, none, some "mount: wrong fs type"]).action =
      StepAction.ActionHalt ∧
    hostEvents (Run insertionSortLessFunc filepathJoin scriptedHost
        [⟨0, "/boot"⟩, ⟨0, ""⟩, ⟨0, "/"⟩] "/dev/loop0" ⟨"loop", "root", "/mnt", []⟩
        [none, none, none, none, some "mount: wrong fs type"]).trace =
      (performUntilFailure scriptedHost
        (rootCall ⟨"loop", "root", "/mnt", []⟩ ::
          mountingCalls filepathJoin
            (resolvedRoot scriptedHost ⟨"loop", "root", "/mnt", []⟩
              [none, none, none, none, some "mount: wrong fs type"]) "/dev/loop0"
            (sortMountablePartitions insertionSortLessFunc
              [⟨0, "/boot"⟩, ⟨0, ""⟩, ⟨0, "/"⟩] false))
        [none, none, none, none, some "mount: wrong fs type"]).2 :=
  ⟨by decide, by decide, by decide, by decide,
    (Run_mounts_ascending_plan insertionSortLessFunc filepathJoin scriptedHost
      [⟨0, "/boot"⟩, ⟨0, ""⟩, ⟨0, "/"⟩] "/dev/loop0" ⟨"loop", "root", "/mnt", []⟩
      [none, none, none, none, some "mount: wrong fs type"]).1⟩

/-! ## Communicator: recorded exit status -/

theorem exitStatus_exitedWith (code : Nat) (h : code < 256) :
    WaitStatus.ExitStatus (exitedWith code) = (code : Int) := by
  have h1 : code % 256 * 256 % 128 = 0 := by omega
  have h2 : code % 256 * 256 / 256 % 256 = code := by omega
  unfold WaitStatus.ExitStatus WaitStatus.Exited exitedWith
  rw [h1, h2]
  rfl

theorem exitStatus_killedBy (sig : Nat) (coreDump : Bool) (h1 : 1 ≤ sig) (h2 : sig < 127) :
    WaitStatus.ExitStatus (killedBy sig coreDump) = -1 := by
  have h : (sig + (if coreDump = true then 128 else 0)) % 128 ≠ 0 := by
    cases coreDump <;> simp <;> omega
  simp [WaitStatus.ExitStatus, WaitStatus.Exited, killedBy, h]

/-- C7 as stated fails: a child killed by SIGKILL (signal 9) has a wait status that is
not a normal exit, `ExitStatus()` is `-1` there, and `-1`, not the fallback `1`, is
what the background task records. -/
theorem recordedExitStatus_killed_ne_one :
    WaitStatus.Signaled (killedBy 9 false) = true ∧
    recordedExitStatus (cmdWait (Except.ok (killedBy 9 false)) none) = -1 ∧
    recordedExitStatus (cmdWait (Except.ok (killedBy 9 false)) none) ≠ 1 := by
  decide

/-- C7, amended: the recorded exit status is `n` for every child that exits normally
with exit code `n` (0 ≤ n ≤ 255), and `-1`, the value of `WaitStatus.ExitStatus()` on
a status that is not a normal exit, for every child terminated by a signal; the
fallback value `1` is what is recorded for an `exec.ExitError` whose `Sys()` is not a
`syscall.WaitStatus`. -/
theorem recordedExitStatus_of_child (copyError : Option String) :
    (∀ code : Nat, code < 256 →
      recordedExitStatus (cmdWait (Except.ok (exitedWith code)) copyError) = (code : Int)) ∧
    (∀ (sig : Nat) (coreDump : Bool), 1 ≤ sig → sig < 127 →
      WaitStatus.Signaled (killedBy sig coreDump) = true ∧
      recordedExitStatus (cmdWait (Except.ok (killedBy sig coreDump)) copyError) = -1) ∧
    recordedExitStatus (some (WaitError.exitError none)) = 1 := by
  refine ⟨?_, ?_, rfl⟩
  · intro code hcode
    have hst := exitStatus_exitedWith code hcode
    by_cases h0 : code = 0
    · subst h0
      cases copyError <;> simp [cmdWait, hst, recordedExitStatus]
    · have hne : (code : Int) ≠ 0 := by exact_mod_cast h0
      simp [cmdWait, hst, recordedExitStatus, hne]
  · intro sig coreDump h1 h2
    have hst := exitStatus_killedBy sig coreDump h1 h2
    refine ⟨?_, ?_⟩
    · have h : (sig + (if coreDump = true then 128 else 0)) % 128 = sig := by
        cases coreDump <;> simp <;> omega
      have h127 : sig ≠ 127 := by omega
      have h0 : sig ≠ 0 := by omega
      simp [WaitStatus.Signaled, killedBy, h, h127, h0]
    · simp [cmdWait, hst, recordedExitStatus]

theorem recordedExitStatus_of_child_witness :
    (7 : Nat) < 256 ∧
    recordedExitStatus (cmdWait (Except.ok (exitedWith 7)) none) = 7 ∧
    recordedExitStatus (cmdWait (Except.ok (killedBy 15 false)) none) = -1 :=
  ⟨by decide, (recordedExitStatus_of_child none).1 7 (by decide),
    ((recordedExitStatus_of_child none).2.1 15 false (by decide) (by decide)).2⟩

/-- C8 as stated fails: when the child exits with code 0 and copying a stream failed,
`Wait` returns an error that is not an `exec.ExitError`, and the recorded status is 0;
the same holds when waiting on the process itself fails. -/
theorem recordedExitStatus_zero_on_wait_error :
    cmdWait (Except.ok (exitedWith 0)) (some "write |1: broken pipe") =
      some (WaitError.other "write |1: broken pipe") ∧
    recordedExitStatus (cmdWait (Except.ok (exitedWith 0)) (some "write |1: broken pipe")) = 0 ∧
    recordedExitStatus (cmdWait (Except.error "wait: no child processes") none) = 0 := by
  decide

/-- C8, amended: the recorded exit status is non-zero exactly when `Wait` returns an
`exec.ExitError` (a non-zero exit code or termination by a signal); it is 0 when
`Wait` returns no error and also when `Wait` returns an error that is not an
`exec.ExitError`. -/
theorem recordedExitStatus_eq_zero_iff (procWait : Except String Nat)
    (copyError : Option String) :
    recordedExitStatus (cmdWait procWait copyError) = 0 ↔
      (cmdWait procWait copyError = none ∨
        ∃ msg, cmdWait procWait copyError = some (WaitError.other msg)) := by
  cases procWait with
  | error msg => simp [cmdWait, recordedExitStatus]
  | ok status =>
    by_cases h : WaitStatus.ExitStatus status = 0
    · cases copyError <;> simp [cmdWait, h, recordedExitStatus]
    · simp [cmdWait, h, recordedExitStatus]

/-! ## Communicator: directory upload -/

theorem data_ne_nil_of_ne_empty {src : String} (h : src ≠ "") : src.data ≠ [] := by
  intro hd
  exact h (String.ext hd)

theorem getLast?_data_append_slash (pre : String) :
    (pre ++ "/").data.getLast? = some '/' := by
  have h : (pre ++ "/").data = pre.data ++ ['/'] := by
    rw [String.data_append]
  rw [h, List.getLast?_append]
  rfl

theorem eq_append_slash_of_getLast? {src : String} (h : src.data.getLast? = some '/') :
    ∃ pre : String, src = pre ++ "/" := by
  refine ⟨⟨src.data.dropLast⟩, String.ext ?_⟩
  rw [String.data_append]
  have hne : src.data ≠ [] := by
    intro hd; rw [hd] at h; simp at h
  have hlast : src.data.getLast hne = '/' := by
    rw [List.getLast?_eq_getLast _ hne] at h
    exact Option.some.inj h
  have := List.dropLast_append_getLast hne
  rw [hlast] at this
  exact this.symm

/-- C9: for every non-empty source path, destination, chroot root, host and exclude
list, `UploadDir` runs the command `cp -R '<s>' <join Chroot dst>`, where `<s>` is
`src` followed by `.` when `src` ends in `/` and `src` itself otherwise; and the
exclude list changes nothing of what `UploadDir` does. -/
theorem UploadDir_command (join : String → String → String)
    (run : String → List String → Option String × String) (environ : List String)
    (Chroot dst src : String) (exclude : List String) (hsrc : src ≠ "") :
    ∃ r : UploadDirResult,
      UploadDir join run environ Chroot dst src exclude = some r ∧
      ((∃ pre : String, src = pre ++ "/") →
        r.cpCmd = "cp -R '" ++ (src ++ ".") ++ "' " ++ join Chroot dst) ∧
      ((¬ ∃ pre : String, src = pre ++ "/") →
        r.cpCmd = "cp -R '" ++ src ++ "' " ++ join Chroot dst) ∧
      (∀ exclude' : List String,
        UploadDir join run environ Chroot dst src exclude' = some r) := by
  obtain ⟨last, hlast⟩ : ∃ last, src.data.getLast? = some last := by
    cases h : src.data.getLast? with
    | none => exact absurd (List.getLast?_eq_none_iff.mp h) (data_ne_nil_of_ne_empty hsrc)
    | some last => exact ⟨last, rfl⟩
  by_cases hslash : last = '/'
  · subst hslash
    have hcmd : ∀ e : List String, ∃ r : UploadDirResult,
        UploadDir join run environ Chroot dst src e = some r ∧
        r.cpCmd = "cp -R '" ++ (src ++ ".") ++ "' " ++ join Chroot dst ∧
        UploadDir join run environ Chroot dst src exclude = some r := by
      intro e
      simp only [UploadDir, hlast, if_true]
      rcases hrun : run ("cp -R '" ++ (src ++ ".") ++ "' " ++ join Chroot dst)
        (["LANG=C"] ++ environ) with ⟨_ | err, stderr⟩
      · exact ⟨_, rfl, rfl, rfl⟩
      · by_cases hc : stringsContains stderr "No such file" = true
        · simp [hc]
        · simp [hc]
    obtain ⟨r, hr, hcp, _⟩ := hcmd exclude
    refine ⟨r, hr, fun _ => hcp, fun hno => absurd (eq_append_slash_of_getLast? hlast) hno, ?_⟩
    intro e
    obtain ⟨r', hr', _, hr''⟩ := hcmd e
    rw [hr'] ; rw [hr] at hr''; exact hr''.symm ▸ rfl
  · have hcmd : ∀ e : List String, ∃ r : UploadDirResult,
        UploadDir join run environ Chroot dst src e = some r ∧
        r.cpCmd = "cp -R '" ++ src ++ "' " ++ join Chroot dst ∧
        UploadDir join run environ Chroot dst src exclude = some r := by
      intro e
      simp only [UploadDir, hlast, hslash, if_false]
      rcases hrun : run ("cp -R '" ++ src ++ "' " ++ join Chroot dst)
        (["LANG=C"] ++ environ) with ⟨_ | err, stderr⟩
      · exact ⟨_, rfl, rfl, rfl⟩
      · by_cases hc : stringsContains stderr "No such file" = true
        · simp [hc]
        · simp [hc]
    obtain ⟨r, hr, hcp, _⟩ := hcmd exclude
    refine ⟨r, hr, ?_, fun _ => hcp, ?_⟩
    · rintro ⟨pre, hpre⟩
      rw [hpre, getLast?_data_append_slash] at hlast
      exact absurd (Option.some.inj hlast).symm hslash
    · intro e
      obtain ⟨r', hr', _, hr''⟩ := hcmd e
      rw [hr'] ; rw [hr] at hr''; exact hr''.symm ▸ rfl

theorem UploadDir_command_witness :
    ("foo/" : String) ≠ "" ∧
    (∃ r : UploadDirResult,
      UploadDir filepathJoin succeedingCopy [] "/mnt" "/opt" "foo/" ["*.o"] = some r ∧
      r.cpCmd = "cp -R 'foo/.' /mnt/opt") ∧
    (∃ r : UploadDirResult,
      UploadDir filepathJoin succeedingCopy [] "/mnt" "/opt" "foo" ["*.o"] = some r ∧
      r.cpCmd = "cp -R 'foo' /mnt/opt") :=
  ⟨by decide,
    (UploadDir_command filepathJoin succeedingCopy [] "/mnt" "/opt" "foo/" ["*.o"]
      (by decide)).elim
      (fun r h => ⟨r, h.1, (h.2.1 ⟨"foo", by decide⟩).trans (by decide)⟩),
    (UploadDir_command filepathJoin succeedingCopy [] "/mnt" "/opt" "foo" ["*.o"]
      (by decide)).elim
      (fun r h => ⟨r, h.1, (h.2.2.1 (fun hpre => hpre.elim (fun pre hp =>
        absurd ((congrArg (fun t : String => t.data.getLast?) hp).trans
          (getLast?_data_append_slash pre)) (by decide)))).trans (by decide)⟩)⟩

/-- C10: for every non-empty source path, destination and host, whatever the copy
command returns (success, a failure whose stderr holds "No such file", or any other
failure), `UploadDir` returns nil. -/
theorem UploadDir_returns_nil (join : String → String → String)
    (run : String → List String → Option String × String) (environ : List String)
    (Chroot dst src : String) (exclude : List String) (hsrc : src ≠ "") :
    ∃ r : UploadDirResult,
      UploadDir join run environ Chroot dst src exclude = some r ∧ r.err = none := by
  obtain ⟨last, hlast⟩ : ∃ last, src.data.getLast? = some last := by
    cases h : src.data.getLast? with
    | none => exact absurd (List.getLast?_eq_none_iff.mp h) (data_ne_nil_of_ne_empty hsrc)
    | some last => exact ⟨last, rfl⟩
  simp only [UploadDir, hlast]
  rcases hrun : run ("cp -R '" ++ (if last = '/' then src ++ "." else src) ++ "' " ++
      join Chroot dst) (["LANG=C"] ++ environ) with ⟨_ | err, stderr⟩
  · exact ⟨_, rfl, rfl⟩
  · by_cases hc : stringsContains stderr "No such file" = true
    · simp [hc]
    · simp [hc]

theorem UploadDir_returns_nil_witness :
    ("foo/" : String) ≠ "" ∧
    (deniedCopy "cp -R 'foo/.' /mnt/opt" ["LANG=C"]).1 = some "exit status 1" ∧
    ∃ r : UploadDirResult,
      UploadDir filepathJoin deniedCopy [] "/mnt" "/opt" "foo/" [] = some r ∧ r.err = none :=
  ⟨by decide, rfl,
    UploadDir_returns_nil filepathJoin deniedCopy [] "/mnt" "/opt" "foo/" [] (by decide)⟩

end Builder
